import Mathlib

/-!
Verification development for the partition engine of
`lib/storage/partition.go` (VictoriaMetrics).

The Go source is shallowly embedded: pure computations become Lean
functions, mutable partition state becomes explicit state passing, Go
`uint64` arithmetic is `Nat` with explicit `% 2^64` where wrap-around is
possible, and fallible code returns `Option`/`Except` (`none` models a
`logger.Panicf` crash).  External collaborators (block stream
readers/writers, the filesystem, `mergeBlockStreams`, pools) are passed
in as oracle parameters, so theorems quantify over their behaviour.
-/

namespace VMPartition

/-! ## Constants (partition.go lines 25-60) -/

/-- `maxRowsPerSmallPart = 300e6`. -/
def maxRowsPerSmallPart : Nat := 300000000

/-- `maxRowsPerBigPart = 1e12`. -/
def maxRowsPerBigPart : Nat := 1000000000000

/-- `maxSmallPartsPerPartition = 256`. -/
def maxSmallPartsPerPartition : Nat := 256

/-- `defaultPartsToMerge = 15`. -/
def defaultPartsToMerge : Nat := 15

/-- `finalPartsToMerge = 3`. -/
def finalPartsToMerge : Nat := 3

/-! ## Part wrapper (partition.go lines 148-182)

`partWrapper` wraps a part together with its reference count and merge
flag.  The part artifact `p` and the in-memory backing `mp` are external
objects; the embedding keeps the observables the claims need: whether
`mp` is non-nil (`hasMP`), whether the part artifact is still open
(`pOpen`,set to false by `p.MustClose()`), the part header fields
`RowsCount`/`MinTimestamp`/`MaxTimestamp` and the file path.  `id`
models Go pointer identity of the wrapper. -/

structure partWrapper where
  id : Nat := 0
  refCount : Nat := 1
  hasMP : Bool := false
  pOpen : Bool := true
  isInMerge : Bool := false
  rows : Nat := 0
  minTs : Int := 0
  maxTs : Int := 0
  path : String := ""
deriving DecidableEq

/-- `partWrapper.decRef` (lines 167-182).  The Go code atomically adds
`^uint64(0)` (i.e. `-1` mod `2^64`) to `refCount`, panics when the
result re-interpreted as `int64` is negative (`n ≥ 2^63`), frees the
in-memory backing and closes the part when the count reaches zero.
`none` models the panic. -/
def decRef (pw : partWrapper) : Option partWrapper :=
  let n := (pw.refCount + (2 ^ 64 - 1)) % 2 ^ 64
  if n ≥ 2 ^ 63 then none
  else if n > 0 then some { pw with refCount := n }
  else some { pw with refCount := 0, hasMP := false, pOpen := false }

/-! ## MustClose final phase (partition.go lines 601-622)

After all background workers have stopped and the in-memory parts have
been flushed, `MustClose` swaps empty lists in for `smallParts` and
`bigParts` (each under `partsLock`) and calls `decRef` on every handle
that was in them, small parts first.  The embedding returns the new pair
of lists together with the ordered trace of handles passed to `decRef`
and the results of those `decRef` calls. -/

structure closeState where
  smallParts : List partWrapper
  bigParts : List partWrapper
deriving DecidableEq

/-- The final phase of `MustClose`: swap both part lists for empty ones
and `decRef` every handle exactly once (small handles first, then big
ones, in list order). -/
def mustCloseFinal (st : closeState) : closeState × List partWrapper × List (Option partWrapper) :=
  let smallParts := st.smallParts
  let st1 : closeState := { st with smallParts := [] }
  let bigParts := st1.bigParts
  let st2 : closeState := { st1 with bigParts := [] }
  (st2, smallParts ++ bigParts, (smallParts ++ bigParts).map decRef)

/-! ## Raw-rows pool arithmetic (partition.go lines 62-80, 423-464)

`getRawRowsPool(size)` picks a `sync.Pool` bucket: it decrements `size`
(clamping at zero), computes `bucketIdx = 64 - bits.LeadingZeros64(size)`
— i.e. the bit length of `size` — caps it at `len(rawRowsPools)-1 = 18`
and returns the bucket together with `sizeRounded = 1 << bucketIdx`.
A buffer freshly created by `getRawRowsWithSize` therefore has capacity
`sizeRounded`. -/

/-- Bit length of an up-to-64-bit value, one halving per fuel step. -/
def bitLenAux : Nat → Nat → Nat
  | 0, _ => 0
  | fuel + 1, n => if n = 0 then 0 else bitLenAux fuel (n / 2) + 1

/-- Bit length of `n` (`64 - bits.LeadingZeros64(n)` for values that fit
in a `uint64`). -/
def bitLen (n : Nat) : Nat :=
  bitLenAux 64 n

/-- The bucket index chosen by `getRawRowsPool` (lines 450-462). -/
def rawRowsBucketIdx (size : Nat) : Nat :=
  let s := size - 1
  let idx := bitLen s
  if idx ≥ 19 then 18 else idx

/-- `sizeRounded` returned by `getRawRowsPool`: the capacity of a buffer
freshly allocated by `getRawRowsWithSize(size)`. -/
def rawRowsSizeRounded (size : Nat) : Nat :=
  2 ^ rawRowsBucketIdx size

/-- `getMaxRawRowsPerPartition` (lines 63-75) as a function of
`memory.Allowed()` and `unsafe.Sizeof(rawRow{})`:
`clamp(mem / 256 / sizeofRawRow, 1e4, 500e3)`. -/
def getMaxRawRowsPerPartition (memAllowed sizeofRawRow : Nat) : Nat :=
  let n := memAllowed / 256 / sizeofRawRow
  let n := if n < 10000 then 10000 else n
  let n := if n > 500000 then 500000 else n
  n

/-- Size in bytes of a `rawRow`.  Modelled from the spec: the `rawRow`
struct itself is outside `src/`; the spec gives its fields as
`(timestamp: int64, metric_id: uint64, value: float64,
precision_bits: u8)`, which a 64-bit Go compiler lays out in 32 bytes. -/
def sizeofRawRow : Nat := 32

/-! ## The AddRows buffer loop, abstracted to row counts
(partition.go lines 395-415)

The loop body only inspects `cap(pt.rawRows)`, `len(pt.rawRows)` and
`len(rows)`, so for counting buffer swaps the rows are abstracted to
their count.  State: the current buffer capacity `bufCap` and fill
`bufLen`; `rows` is the number of rows still to append; every fresh
buffer drawn by `getRawRowsMaxSize` has capacity `freshCap`.  Each slow
path iteration fills the buffer to capacity, swaps it out (counted) and
continues.  The loop is given explicit fuel; `none` means the fuel ran
out (the Go loop would still be running). -/

def addRowsLoop (freshCap : Nat) : Nat → Nat → Nat → Nat → Option Nat
  | 0, _, _, _ => none
  | fuel + 1, bufCap, bufLen, rows =>
    let capacity := bufCap - bufLen
    if capacity ≥ rows then
      some 0
    else
      match addRowsLoop freshCap fuel freshCap 0 (rows - capacity) with
      | none => none
      | some swaps => some (swaps + 1)

/-- Number of buffer swaps performed by one `AddRows` call appending
`rows` rows to a buffer of capacity `bufCap` holding `bufLen` rows,
where fresh buffers have capacity `rawRowsSizeRounded maxRaw` (the
capacity `getRawRowsMaxSize` allocates when `maxRawRowsPerPartition =
maxRaw`).  Fuel `rows + 2` covers every terminating run relevant here. -/
def addRowsSwaps (maxRaw bufCap bufLen rows : Nat) : Option Nat :=
  addRowsLoop (rawRowsSizeRounded maxRaw) (rows + 2) bufCap bufLen rows

/-! ## Ingest state and `addRowsPart` (partition.go lines 375-517,
624-665)

A raw row keeps the fields the partition core inspects: `Timestamp`
(validated against the partition time range) and `PrecisionBits`
(validated by `encoding.CheckPrecisionBits`).  The `Value` (`float64`)
and `MetricID` fields are opaque to the core and are omitted. -/

structure rawRow where
  timestamp : Int := 0
  precisionBits : Nat := 64
deriving DecidableEq

/-- A partition time range (`TimeRange`). -/
structure TimeRange where
  minTimestamp : Int
  maxTimestamp : Int
deriving DecidableEq

/-- The outcome of a `mergeSmallParts` call as seen by `addRowsPart`:
`nil`, `errNothingToMerge`, `errForciblyStopped`, or any other error. -/
inductive MergeOutcome where
  | ok
  | nothingToMerge
  | forciblyStopped
  | otherErr
deriving DecidableEq

/-- The ingest-facing partition state: the time range, the small-part
list, the `smallAssistedMerges` counter, the raw-row buffer (with its
capacity tracked explicitly, Go slices carry it implicitly) and
`rawRowsLastFlushTime` in nanoseconds. -/
structure IngestState where
  tr : TimeRange
  smallParts : List partWrapper
  smallAssistedMerges : Nat := 0
  rawRows : List rawRow := []
  rawRowsCap : Nat := 0
  rawRowsLastFlushTime : Int := 0

/-- `pt.HasTimestamp` (lines 520-522). -/
def HasTimestamp (tr : TimeRange) (timestamp : Int) : Bool :=
  timestamp ≥ tr.minTimestamp && timestamp ≤ tr.maxTimestamp

/-- `encoding.CheckPrecisionBits`.  Modelled from the spec: the
`encoding` package is outside `src/`; the spec states a row's
`precision_bits` must be "a valid value (1..64 with known bounds)". -/
def checkPrecisionBits (pb : Nat) : Bool :=
  1 ≤ pb && pb ≤ 64

/-- `pt.addRowsPart(rows)` (lines 466-517).  External collaborators are
oracles: `mkPart rows` stands for `getInmemoryPart` +
`mp.InitFromRows(rows)` + `mp.NewPart()` and yields the header data of
the new in-memory part; `mergeSmallParts isFinal st` stands for
`pt.mergeSmallParts(isFinal)` and returns its outcome together with the
state it leaves behind.  The returned list records the `isFinal`
argument of every `mergeSmallParts` invocation made; a `none` state
models a panic (the invocation trace stays observable). -/
def addRowsPart (mkPart : List rawRow → partWrapper)
    (mergeSmallParts : Bool → IngestState → MergeOutcome × IngestState)
    (st : IngestState) (rows : List rawRow) :
    Option IngestState × List Bool :=
  if rows.isEmpty then (some st, [])
  else
    let mp := mkPart rows
    if mp.minTs > mp.maxTs then (none, [])
    else if mp.minTs < st.tr.minTimestamp then (none, [])
    else if mp.maxTs > st.tr.maxTimestamp then (none, [])
    else
      let pw : partWrapper := { mp with refCount := 1, hasMP := true, isInMerge := false }
      let st1 := { st with smallParts := st.smallParts ++ [pw] }
      let ok := st1.smallParts.length ≤ maxSmallPartsPerPartition
      if ok then (some st1, [])
      else
        match mergeSmallParts false st1 with
        | (.ok, st2) =>
          (some { st2 with smallAssistedMerges := st2.smallAssistedMerges + 1 }, [false])
        | (.nothingToMerge, st2) => (some st2, [false])
        | (.forciblyStopped, st2) => (some st2, [false])
        | (.otherErr, _) => (none, [false])

/-- The buffer-filling loop of `AddRows` (lines 397-415) on explicit row
lists.  Returns the final buffer contents together with the list of
swapped-out full buffers, oldest first.  Fresh buffers are empty with
capacity `freshCap` (`getRawRowsMaxSize`).  Explicit fuel; `none` means
the fuel ran out. -/
def addRowsFill (freshCap : Nat) :
    Nat → List rawRow → Nat → List rawRow → Option (List rawRow × Nat × List (List rawRow))
  | 0, _, _, _ => none
  | fuel + 1, buf, bufCap, rows =>
    let capacity := bufCap - buf.length
    if capacity ≥ rows.length then
      some (buf ++ rows, bufCap, [])
    else
      let full := buf ++ rows.take capacity
      match addRowsFill freshCap fuel [] freshCap (rows.drop capacity) with
      | none => none
      | some (buf2, cap2, swapped) => some (buf2, cap2, full :: swapped)

/-- `pt.AddRows(rows)` (lines 379-421).  Validates every row, runs the
buffer loop, then calls `addRowsPart` on every swapped-out buffer in
order.  `now` is the wall-clock time used for `rawRowsLastFlushTime`.
Returns the final state and the trace of `mergeSmallParts` invocations
made through `addRowsPart`. -/
def AddRows (mkPart : List rawRow → partWrapper)
    (mergeSmallParts : Bool → IngestState → MergeOutcome × IngestState)
    (maxRaw : Nat) (now : Int) (st : IngestState) (rows : List rawRow) :
    Option (IngestState × List Bool) :=
  if rows.length = 0 then some (st, [])
  else if !(rows.all fun r => HasTimestamp st.tr r.timestamp && checkPrecisionBits r.precisionBits) then
    none
  else
    match addRowsFill (rawRowsSizeRounded maxRaw) (rows.length + 2) st.rawRows st.rawRowsCap rows with
    | none => none
    | some (buf, bufCap, swapped) =>
      let st1 := { st with rawRows := buf, rawRowsCap := bufCap,
                           rawRowsLastFlushTime := if swapped.isEmpty then st.rawRowsLastFlushTime else now }
      swapped.foldl
        (fun acc b =>
          match acc with
          | none => none
          | some (s, calls) =>
            match addRowsPart mkPart mergeSmallParts s b with
            | (none, _) => none
            | (some s2, calls2) => some (s2, calls ++ calls2))
        (some (st1, []))

/-- `rawRowsFlushInterval = time.Second` in nanoseconds. -/
def rawRowsFlushInterval : Int := 1000000000

/-- `pt.flushRawRows(newRawRows, isFinal)` (lines 647-665): if the flush
is due (final, or more than `rawRowsFlushInterval` since the last
flush), steal the buffer, stamp the flush time, and hand the stolen rows
to `addRowsPart`.  Returns the new state and the stolen rows. -/
def flushRawRows (mkPart : List rawRow → partWrapper)
    (mergeSmallParts : Bool → IngestState → MergeOutcome × IngestState)
    (currentTime : Int) (st : IngestState) (isFinal : Bool) :
    Option (IngestState × List rawRow) :=
  let mustFlush := isFinal || decide (currentTime - st.rawRowsLastFlushTime > rawRowsFlushInterval)
  if mustFlush then
    let oldRawRows := st.rawRows
    let st1 := { st with rawRows := [], rawRowsLastFlushTime := currentTime }
    match addRowsPart mkPart mergeSmallParts st1 oldRawRows with
    | (none, _) => none
    | (some st2, _) => some (st2, oldRawRows)
  else
    some (st, [])

/-! ## Transaction log (partition.go lines 1381-1478)

The filesystem is modelled by its existence predicate: `fs q = true`
iff the path `q` exists.  `os.RemoveAll p` clears `p` and everything
below it; `os.Rename src dst` moves the subtree rooted at `src` to
`dst`; `os.Remove p` clears the single path `p`.  Path canonicalization
(`filepath.Abs`) is an environment-dependent oracle `abs`;
`ioutil.ReadFile` is modelled by passing the transaction file contents
`data` directly (the caller just wrote the file). -/

/-- `strings.HasPrefix` on Go byte strings, here at character level
(structurally recursive, so concrete instances evaluate). -/
def strStarts (s pre : String) : Bool :=
  List.isPrefixOf pre.data s.data

/-- `strings.Split` around a non-empty separator, on character lists,
with explicit structural fuel (one unit per character suffices). -/
def splitSubAux (pat : List Char) : Nat → List Char → List Char → List (List Char)
  | 0, cs, acc => [acc.reverse ++ cs]
  | fuel + 1, cs, acc =>
    match cs with
    | [] => [acc.reverse]
    | c :: rest =>
      if List.isPrefixOf pat (c :: rest) then
        acc.reverse :: splitSubAux pat fuel ((c :: rest).drop pat.length) []
      else
        splitSubAux pat fuel rest (c :: acc)

/-- `strings.Split(s, sep)` for non-empty `sep`. -/
def splitSub (pat : List Char) (cs : List Char) : List (List Char) :=
  splitSubAux pat (cs.length + 1) cs []

/-- A filesystem as the set of existing paths. -/
def FS : Type := String → Bool

/-- `os.RemoveAll p`: afterwards neither `p` nor anything under `p/`
exists.  Removing a missing path is not an error — the operation is
total. -/
def removeAllFS (p : String) (fs : FS) : FS :=
  fun q => if q = p || strStarts q (p ++ "/") then false else fs q

/-- `os.Remove p` on a plain file: afterwards `p` does not exist. -/
def removeFileFS (p : String) (fs : FS) : FS :=
  fun q => if q = p then false else fs q

/-- `os.Rename src dst`: the subtree under `src` reappears under `dst`
and vanishes from `src`. -/
def renameFS (src dst : String) (fs : FS) : FS :=
  fun q =>
    if q = dst then fs src
    else if strStarts q (dst ++ "/") then fs (src ++ q.drop dst.length)
    else if q = src || strStarts q (src ++ "/") then false
    else fs q

/-- `validatePath` (lines 1458-1478): canonicalize both prefixes and the
path with `abs` (`filepath.Abs`); accept iff the canonical path starts
with `<prefix1>/` or `<prefix2>/`, returning the canonical path. -/
def validatePath (abs : String → String) (pathPrefix1 pathPrefix2 path : String) :
    Except String String :=
  let p1 := abs pathPrefix1
  let p2 := abs pathPrefix2
  let p := abs path
  if strStarts p (p1 ++ "/") || strStarts p (p2 ++ "/") then Except.ok p
  else Except.error ("invalid path " ++ p)

/-- The remove loop of `runTransaction` (lines 1406-1414): validate each
path in order and `os.RemoveAll` it, stopping at the first invalid
path. -/
def applyRmPaths (abs : String → String) (pathPrefix1 pathPrefix2 : String) :
    List String → FS → Except String FS
  | [], fs => Except.ok fs
  | path :: rest, fs =>
    match validatePath abs pathPrefix1 pathPrefix2 path with
    | Except.error e => Except.error ("invalid path to remove: " ++ e)
    | Except.ok p => applyRmPaths abs pathPrefix1 pathPrefix2 rest (removeAllFS p fs)

/-- The parsing phase of `runTransaction` (lines 1391-1403): strip one
trailing newline, split into lines, take all but the last as remove
paths, and split the last line on `" -> "` into source and destination.
`none` models the two malformed-file error returns. -/
def parseTxn (data : String) : Option (List String × String × String) :=
  let cs := data.data
  let cs := if cs.getLast? = some (Char.ofNat 10) then cs.dropLast else cs
  let paths := splitSub [Char.ofNat 10] cs
  if paths.length = 0 then none
  else
    let rmPaths := (paths.dropLast).map String.mk
    let mvPaths := splitSub (" -> ".data) (paths.getLastD [])
    if mvPaths.length ≠ 2 then none
    else some (rmPaths, String.mk (mvPaths.getD 0 []), String.mk (mvPaths.getD 1 []))

/-- `runTransaction` (lines 1381-1456).  Parse the transaction file,
validate and remove every remove path, then handle the terminal
`src -> dst` line: empty `dst` means `RemoveAll src`; otherwise rename
`src` to `dst` when `src` exists, and merely verify `dst` exists when it
does not.  On success the transaction file itself is removed
(`os.Remove` fails when it is missing).  The `snapshotLock`/`SyncPath`
effects have no observable counterpart in this model. -/
def runTransaction (abs : String → String) (pathPrefix1 pathPrefix2 txnPath : String)
    (data : String) (fs : FS) : Except String FS :=
  match parseTxn data with
  | none => Except.error "invalid transaction file"
  | some (rmPaths, srcPath, dstPath) =>
    match applyRmPaths abs pathPrefix1 pathPrefix2 rmPaths fs with
    | Except.error e => Except.error e
    | Except.ok fs1 =>
      match validatePath abs pathPrefix1 pathPrefix2 srcPath with
      | Except.error e => Except.error ("invalid source path to rename: " ++ e)
      | Except.ok src =>
        let step :=
          if dstPath.length > 0 then
            match validatePath abs pathPrefix1 pathPrefix2 dstPath with
            | Except.error e => Except.error ("invalid destination path to rename: " ++ e)
            | Except.ok dst =>
              if fs1 src then Except.ok (renameFS src dst fs1)
              else if fs1 dst then Except.ok fs1
              else Except.error "cannot find both source and destination paths"
          else
            Except.ok (removeAllFS src fs1)
        match step with
        | Except.error e => Except.error e
        | Except.ok fs2 =>
          if fs2 txnPath then Except.ok (removeFileFS txnPath fs2)
          else Except.error "cannot remove transaction file"

/-! ## Merge planner: `appendPartsToMerge` (partition.go lines
1136-1208)

`sort.Slice` sorts with the comparator
`less a b := a.RowsCount < b.RowsCount ∨ (equal ∧ a.MinTimestamp >
b.MinTimestamp)`; the embedding uses `mergeSort` with the total order
`¬ less b a`, producing one arrangement sorted exactly as the Go
comparator demands (`sort.Slice` is free to pick any such arrangement
of tied elements).  `rowsSum` accumulates in a `uint64`, so each
addition wraps mod `2^64`.  The `float64` write-amplification score
`m = float64(rowsSum) / float64(lastRows)` is kept as the pair
`(rowsSum, lastRows)`; every comparison the program performs on scores
is modelled by `fltPair`, which reproduces `float64` ordering on these
values by exact cross-multiplication — including `0/0 = NaN` and
`pos/0 = +Inf`, both of which compare `false` against everything (the
operand conversions are exact for row counts below 2^53; rounding
above that is the one remaining approximation). -/

/-- Total order used to sort merge candidates: rows count ascending,
`MinTimestamp` descending on ties (the complement of the Go `less`
comparator with swapped arguments). -/
def partLe (a b : partWrapper) : Bool :=
  decide (a.rows < b.rows) || (decide (a.rows = b.rows) && decide (b.minTs ≤ a.minTs))

/-- The contiguous window `src[j : j+i]`. -/
def winAt (sorted : List partWrapper) (i j : Nat) : List partWrapper :=
  (sorted.drop j).take i

/-- `rowsSum` (line 1184): `uint64` total of the window `src[j : j+i]`,
each addition wrapping mod `2^64`. -/
def winSum (sorted : List partWrapper) (i j : Nat) : Nat :=
  ((winAt sorted i j).map (fun pw => pw.rows)).foldl (fun s r => (s + r) % 2 ^ 64) 0

/-- `src[j+i-1].p.ph.RowsCount`: rows count of the window's last
(largest) element. -/
def winLastRows (sorted : List partWrapper) (i j : Nat) : Nat :=
  (sorted.getD (j + i - 1) {}).rows

/-- `float64` `<` on scores kept as `(numerator, denominator)` pairs:
a zero denominator encodes `NaN` (numerator `0`) or `+Inf` (numerator
positive), and both compare `false` against everything on the left;
`+Inf` on the right is above every finite value; finite values compare
by exact cross-multiplication. -/
def fltPair (a b : Nat × Nat) : Bool :=
  if a.2 = 0 then false
  else if b.2 = 0 then
    if b.1 = 0 then false else true
  else decide (a.1 * b.2 < b.1 * a.2)

/-- The exact rational value of a finite score pair. -/
def scoreQ (a : Nat × Nat) : ℚ :=
  (a.1 : ℚ) / (a.2 : ℚ)

/-- The write-amplification score `m` of the window `src[j : j+i]` as an
exact rational (meaningful when the window's last element has rows). -/
def winScoreQ (sorted : List partWrapper) (i j : Nat) : ℚ :=
  scoreQ (winSum sorted i j, winLastRows sorted i j)

/-- One step of the exhaustive search (lines 1180-1196): skip windows
whose (wrapped) rows total exceeds `maxRows`, otherwise keep the window
when its score is not `float64`-below the best so far. -/
def searchStep (sorted : List partWrapper) (maxRows : Nat)
    (acc : (Nat × Nat) × List partWrapper) (p : Nat × Nat) :
    (Nat × Nat) × List partWrapper :=
  let rowsSum := winSum sorted p.1 p.2
  if rowsSum > maxRows then acc
  else
    let m := (rowsSum, winLastRows sorted p.1 p.2)
    if fltPair m acc.1 then acc else (m, winAt sorted p.1 p.2)

/-- The `(i, j)` pairs enumerated by the nested loops, in iteration
order: `i` from `2` to `n`, `j` from `0` to `len - i`. -/
def windowPairs (n len : Nat) : List (Nat × Nat) :=
  (List.range' 2 (n - 1)).flatMap fun i =>
    (List.range (len + 1 - i)).map fun j => (i, j)

/-- The full exhaustive search, starting from `maxM = 0` (the pair
`(0, 1)`), `pws = nil`. -/
def searchBest (sorted : List partWrapper) (maxRows n : Nat) :
    (Nat × Nat) × List partWrapper :=
  (windowPairs n sorted.length).foldl (searchStep sorted maxRows) ((0, 1), [])

/-- `appendPartsToMerge(dst, src, maxPartsToMerge, maxRows)` (lines
1136-1208): return `dst` unchanged for fewer than two candidates; panic
(`none`) when `maxPartsToMerge < 2`; drop candidates with more than
`maxRows/2` rows; sort; search every contiguous window of length `2..n`;
return `dst` unchanged when the best score is below
`max(2, maxPartsToMerge/2)`, else append the winning window. -/
def appendPartsToMerge (dst src : List partWrapper) (maxPartsToMerge maxRows : Nat) :
    Option (List partWrapper) :=
  if src.length < 2 then some dst
  else if maxPartsToMerge < 2 then none
  else
    let maxInPartRows := maxRows / 2
    let filtered := src.filter fun pw => decide (pw.rows ≤ maxInPartRows)
    let sorted := filtered.mergeSort partLe
    let n := min maxPartsToMerge sorted.length
    let best := searchBest sorted maxRows n
    let minM := max 2 (maxPartsToMerge / 2)
    if fltPair best.1 (minM, 1) then some dst
    else some (dst ++ best.2)

/-- The candidate list `appendPartsToMerge` actually searches (lines
1145-1169): the too-big parts filtered out, then sorted by the
comparator. -/
def sortedCandidates (src : List partWrapper) (maxRows : Nat) : List partWrapper :=
  (src.filter fun pw => decide (pw.rows ≤ maxRows / 2)).mergeSort partLe

/-! ## Merge executor: `mergeParts` (partition.go lines 869-1103)

Part handles are heap-allocated and shared between the two registry
lists and the merge set, so the embedding uses an explicit heap
`Nat → partWrapper` addressed by handle identity; the registry lists
hold identities.  External effects are driven by a `MergeEnv` oracle:
which `InitFromFilePart` calls fail, whether the block-stream writer
can be created, the outcome of `mergeBlockStreams` (`errForciblyStopped`,
another error, or the merged header's rows count), whether writing and
running the transaction file fails, and whether `openFilePart` fails.
`none` models a `logger.Panicf` crash. -/

/-- Heap update at one handle identity. -/
def updHeap (heap : Nat → partWrapper) (idv : Nat) (pw : partWrapper) :
    Nat → partWrapper :=
  fun j => if j = idv then pw else heap j

/-- The merge-facing partition state. -/
structure PtState where
  heap : Nat → partWrapper
  smallParts : List Nat
  bigParts : List Nat
  smallPartsPath : String
  bigPartsPath : String
  mergeIdx : Nat := 0

/-- Errors `mergeParts` can return. -/
inductive MergeErr where
  | nothingToMerge
  | forciblyStopped
  | other
deriving DecidableEq

/-- Oracle for the external steps of one `mergeParts` run. -/
structure MergeEnv where
  /-- Whether `bsr.InitFromFilePart` fails for the i-th source part. -/
  readerFileErr : Nat → Bool
  /-- Whether `bsw.InitFromFilePart` fails for the destination. -/
  bswInitErr : Bool := false
  /-- Outcome of `mergeBlockStreams`: `.error true` is
  `errForciblyStopped`, `.error false` any other merge error, `.ok n`
  success with `ph.RowsCount = n`. -/
  mergeResult : Except Bool Nat
  /-- The destination directory name produced by
  `ph.Path(ptPath, mergeIdx)`.  Modelled from the spec: `partHeader.Path`
  is outside `src/`; the spec only requires the destination to live
  under the chosen tier root. -/
  phName : String := "part"
  /-- Whether `fs.WriteFile(txnPath, ...)` fails. -/
  writeTxnErr : Bool := false
  /-- Whether `runTransaction` fails. -/
  runTxnErr : Bool := false
  /-- Whether `openFilePart(dstPartPath)` fails. -/
  openPartErr : Bool := false
  /-- Heap identity of the freshly opened merged part's wrapper. -/
  newId : Nat := 0

/-- Observables of one `mergeParts` run. -/
structure MergeResult where
  res : Except MergeErr Unit
  state : PtState
  /-- Arguments of the `bsw.InitFromFilePart(tmpPartPath, nocache,
  compressLevel)` call, when reached. -/
  bswCall : Option (String × Bool × Nat) := none
  /-- `(tmpPartPath, dstPartPath)` of the transaction file's terminal
  line, when reached. -/
  txnTerminal : Option (String × String) := none
  /-- Destination path passed to `openFilePart`, when a merged part was
  opened. -/
  openedDst : Option String := none
  /-- Handle identities passed to `decRef`, in order. -/
  decRefed : List Nat := []

/-- `getCompressLevelForRowsCount` (lines 1072-1086). -/
def getCompressLevelForRowsCount (rowsCount : Nat) : Nat :=
  if rowsCount ≤ 2 ^ 19 then 1
  else if rowsCount ≤ 2 ^ 22 then 2
  else if rowsCount ≤ 2 ^ 25 then 3
  else if rowsCount ≤ 2 ^ 28 then 4
  else 5

/-- One hexadecimal digit, upper case. -/
def hexDigit (n : Nat) : Char :=
  if n < 10 then Char.ofNat (48 + n) else Char.ofNat (55 + n)

/-- `fmt.Sprintf("%016X", n)` for `n < 2^64`. -/
def hex16 (n : Nat) : String :=
  String.mk ((List.range 16).map fun k => hexDigit (n / 16 ^ (15 - k) % 16))

/-- `outRowsCount` (lines 951-954): `uint64` sum of the source parts'
rows counts, each addition wrapping mod `2^64`. -/
def outRowsCount (heap : Nat → partWrapper) (pws : List Nat) : Nat :=
  pws.foldl (fun s idv => (s + (heap idv).rows) % 2 ^ 64) 0

/-- Whether all source block-stream readers open successfully (lines
939-949): in-memory parts always do, file parts fail when the oracle
says so. -/
def readersOk (env : MergeEnv) (heap : Nat → partWrapper) (pws : List Nat) : Bool :=
  pws.enum.all fun p => (heap p.2).hasMP || !(env.readerFileErr p.1)

/-- `removeParts` (lines 1092-1103): drop the handles in `partsToRemove`
keeping order, and count how many were dropped. -/
def removeParts (pws : List Nat) (partsToRemove : List Nat) : List Nat × Nat :=
  pws.foldl
    (fun acc idv =>
      if idv ∈ partsToRemove then (acc.1, acc.2 + 1) else (acc.1 ++ [idv], acc.2))
    ([], 0)

/-- `decRef` over the heap for every handle in order; `none` models the
refcount-underflow panic. -/
def decRefAll : List Nat → (Nat → partWrapper) → Option (Nat → partWrapper)
  | [], heap => some heap
  | idv :: rest, heap =>
    (decRef (heap idv)).bind fun pw => decRefAll rest (updHeap heap idv pw)

/-- The deferred flag clearing (lines 918-928): every handle of the
merge set must still carry `isInMerge`; clear it.  A missing flag is a
`logger.Panicf` (`none`). -/
def clearFlags : List Nat → (Nat → partWrapper) → Option (Nat → partWrapper)
  | [], heap => some heap
  | idv :: rest, heap =>
    if (heap idv).isInMerge then
      clearFlags rest (updHeap heap idv { heap idv with isInMerge := false })
    else none

/-- The body of `mergeParts` between the deferred flag clearing and the
return (lines 930-1069).  The partition paths are used as-is:
`filepath.Clean` is the identity on the already-clean paths
`newPartition` stores. -/
def mergePartsCore (env : MergeEnv) (st : PtState) (pws : List Nat) :
    Option MergeResult :=
  if !(readersOk env st.heap pws) then
    some { res := Except.error MergeErr.other, state := st }
  else
    let outRows := outRowsCount st.heap pws
    let isBigPart := decide (outRows > maxRowsPerSmallPart)
    let nocache := isBigPart
    let ptPath := if isBigPart then st.bigPartsPath else st.smallPartsPath
    let mergeIdx := (st.mergeIdx + 1) % 2 ^ 64
    let st := { st with mergeIdx := mergeIdx }
    let tmpPartPath := ptPath ++ "/tmp/" ++ hex16 mergeIdx
    let compressLevel := getCompressLevelForRowsCount outRows
    let bswCall := some (tmpPartPath, nocache, compressLevel)
    if env.bswInitErr then
      some { res := Except.error MergeErr.other, state := st, bswCall := bswCall }
    else
      match env.mergeResult with
      | Except.error true =>
        some { res := Except.error MergeErr.forciblyStopped, state := st, bswCall := bswCall }
      | Except.error false =>
        some { res := Except.error MergeErr.other, state := st, bswCall := bswCall }
      | Except.ok phRows =>
        let dstPartPath := if phRows > 0 then ptPath ++ "/" ++ env.phName else ""
        let txnTerminal := some (tmpPartPath, dstPartPath)
        if env.writeTxnErr then
          some { res := Except.error MergeErr.other, state := st, bswCall := bswCall,
                 txnTerminal := txnTerminal }
        else if env.runTxnErr then
          some { res := Except.error MergeErr.other, state := st, bswCall := bswCall,
                 txnTerminal := txnTerminal }
        else if dstPartPath.length > 0 && env.openPartErr then
          some { res := Except.error MergeErr.other, state := st, bswCall := bswCall,
                 txnTerminal := txnTerminal }
        else
          let newPW : Option Nat := if dstPartPath.length > 0 then some env.newId else none
          let heap1 :=
            match newPW with
            | some nid =>
              updHeap st.heap nid
                { id := nid, refCount := 1, hasMP := false, pOpen := true,
                  isInMerge := false, rows := phRows, minTs := 0, maxTs := 0,
                  path := dstPartPath }
            | none => st.heap
          if !pws.Nodup then none
          else
            let small := removeParts st.smallParts pws
            let big := removeParts st.bigParts pws
            let smallParts :=
              match newPW with
              | some nid => if isBigPart then small.1 else small.1 ++ [nid]
              | none => small.1
            let bigParts :=
              match newPW with
              | some nid => if isBigPart then big.1 ++ [nid] else big.1
              | none => big.1
            if small.2 + big.2 ≠ pws.length then none
            else
              match decRefAll pws heap1 with
              | none => none
              | some heap2 =>
                let finalState : PtState :=
                  { st with heap := heap2, smallParts := smallParts, bigParts := bigParts }
                some { res := Except.ok (), state := finalState,
                       bswCall := bswCall, txnTerminal := txnTerminal,
                       openedDst := if dstPartPath.length > 0 then some dstPartPath else none,
                       decRefed := pws }

/-- `mergeParts` (lines 912-1070): empty input returns
`errNothingToMerge` before the deferred flag clearing is installed;
otherwise the core runs and the deferred function clears the `isInMerge`
flags on every return path. -/
def mergeParts (env : MergeEnv) (st : PtState) (pws : List Nat) :
    Option MergeResult :=
  if pws.isEmpty then
    some { res := Except.error MergeErr.nothingToMerge, state := st }
  else
    match mergePartsCore env st pws with
    | none => none
    | some mr =>
      match clearFlags pws mr.state.heap with
      | none => none
      | some heap => some { mr with state := { mr.state with heap := heap } }

/-! ## Spec-side descriptions used to state the transaction claim

These definitions follow the spec's words for `run_transaction` (spec
section 4.6, "Apply algorithm") and are compared against the embedded
`runTransaction` above. -/

/-- A path is valid when, after canonicalization, it starts with
`<smallPartsPath>/` or `<bigPartsPath>/`. -/
def specValidPath (abs : String → String) (pathPrefix1 pathPrefix2 path : String) : Bool :=
  strStarts (abs path) (pathPrefix1 ++ "/") || strStarts (abs path) (pathPrefix2 ++ "/")

/-- All paths a transaction file lists: the remove paths, the source,
and the destination when non-empty. -/
def specListedPaths (rmPaths : List String) (srcPath dstPath : String) : List String :=
  rmPaths ++ srcPath :: (if dstPath = "" then [] else [dstPath])

/-- The filesystem after removing every remove path (in order, missing
paths being no error). -/
def specRmApplied (abs : String → String) (rmPaths : List String) (fs : FS) : FS :=
  rmPaths.foldl (fun f q => removeAllFS (abs q) f) fs

/-- The filesystem after the terminal `src -> dst` step: empty `dst`
removes `src`; otherwise `src` is renamed to `dst` when it exists, and
nothing changes when it does not. -/
def specMoveApplied (abs : String → String) (srcPath dstPath : String) (fs1 : FS) : FS :=
  if dstPath = "" then removeAllFS (abs srcPath) fs1
  else if fs1 (abs srcPath) then renameFS (abs srcPath) (abs dstPath) fs1
  else fs1

/-! ## Theorems -/

theorem pow64_eq : (2 : Nat) ^ 64 = 18446744073709551616 := by norm_num

theorem pow63_eq : (2 : Nat) ^ 63 = 9223372036854775808 := by norm_num

/-- Behaviour of `decRef` on a handle with a realistic reference count:
the count drops by one, the flag and header fields survive, and the
resources are freed exactly when the count reaches zero. -/
theorem decRef_bounds (pw : partWrapper) (h1 : 1 ≤ pw.refCount)
    (h2 : pw.refCount < 2 ^ 63) :
    ∃ pw1, decRef pw = some pw1 ∧
      pw1.refCount = pw.refCount - 1 ∧
      pw1.isInMerge = pw.isInMerge ∧
      pw1.id = pw.id ∧ pw1.rows = pw.rows := by
  rw [pow63_eq] at h2
  have hn : (pw.refCount + (2 ^ 64 - 1)) % 2 ^ 64 = pw.refCount - 1 := by
    rw [pow64_eq]; omega
  unfold decRef
  rw [hn]
  by_cases h0 : pw.refCount - 1 > 0
  · rw [if_neg (by rw [pow63_eq]; omega), if_pos h0]
    exact ⟨_, rfl, rfl, rfl, rfl, rfl⟩
  · rw [if_neg (by rw [pow63_eq]; omega), if_neg h0]
    refine ⟨_, rfl, ?_, rfl, rfl, rfl⟩
    simp only []
    omega

/-- C7: `decRef` detects underflow — decrementing a handle whose
`refCount` is already 0 panics; when the decrement reaches exactly 0 the
in-memory backing is returned to its pool and the part artifact is
closed; when the result is still positive nothing is freed and the part
stays usable, so a registry that only holds handles with positive counts
keeps them open. -/
theorem decRef_spec (pw : partWrapper) :
    (pw.refCount = 0 → decRef pw = none) ∧
    (pw.refCount = 1 →
      decRef pw = some { pw with refCount := 0, hasMP := false, pOpen := false }) ∧
    (2 ≤ pw.refCount → pw.refCount < 2 ^ 63 →
      decRef pw = some { pw with refCount := pw.refCount - 1 }) := by
  refine ⟨fun h0 => ?_, fun h1 => ?_, fun h2 h3 => ?_⟩
  · unfold decRef
    rw [h0]
    rw [if_pos (by rw [pow63_eq, pow64_eq]; omega)]
  · unfold decRef
    rw [h1]
    rw [if_neg (by rw [pow63_eq, pow64_eq]; omega), if_neg (by rw [pow64_eq]; omega)]
  · have hn : (pw.refCount + (2 ^ 64 - 1)) % 2 ^ 64 = pw.refCount - 1 := by
      rw [pow64_eq]; omega
    unfold decRef
    rw [hn, if_neg (by rw [pow63_eq] at h3 ⊢; omega), if_pos (by omega)]

/-- C7 witness. -/
theorem decRef_spec_witness :
    decRef { refCount := 0 } = none ∧
    decRef ({ refCount := 1, hasMP := true } : partWrapper)
      = some { refCount := 0, hasMP := false, pOpen := false } ∧
    decRef ({ refCount := 5, hasMP := true } : partWrapper)
      = some { refCount := 4, hasMP := true } :=
  ⟨(decRef_spec _).1 rfl, (decRef_spec _).2.1 rfl,
    (decRef_spec ({ refCount := 5, hasMP := true } : partWrapper)).2.2 (by norm_num)
      (by norm_num)⟩

/-- C6: after the final phase of `MustClose`, both part lists are empty
and every handle that was in either list has been passed to `decRef`
exactly once (its multiplicity in the `decRef` trace equals its combined
multiplicity in the two lists). -/
theorem mustCloseFinal_spec (st : closeState) :
    (mustCloseFinal st).1.smallParts = [] ∧
    (mustCloseFinal st).1.bigParts = [] ∧
    (mustCloseFinal st).2.1 = st.smallParts ++ st.bigParts ∧
    (∀ pw : partWrapper,
      (mustCloseFinal st).2.1.count pw = st.smallParts.count pw + st.bigParts.count pw) ∧
    (mustCloseFinal st).2.2 = (mustCloseFinal st).2.1.map decRef := by
  refine ⟨rfl, rfl, rfl, fun pw => ?_, rfl⟩
  simp [mustCloseFinal, List.count_append]

/-- C3: for a non-empty batch of valid rows, `addRowsPart` appends the
new small-part handle; if the list then exceeds
`maxSmallPartsPerPartition = 256` it synchronously invokes
`mergeSmallParts(isFinal = false)`; `errNothingToMerge` and
`errForciblyStopped` return normally, any other error panics, and a
successful assist increments `smallAssistedMerges`; in particular a
partition holding exactly 256 small parts triggers the assisted merge on
the next insert. -/
theorem addRowsPart_assist_spec
    (mkPart : List rawRow → partWrapper)
    (mergeFn : Bool → IngestState → MergeOutcome × IngestState)
    (st : IngestState) (rows : List rawRow)
    (hne : rows ≠ [])
    (hv1 : (mkPart rows).minTs ≤ (mkPart rows).maxTs)
    (hv2 : st.tr.minTimestamp ≤ (mkPart rows).minTs)
    (hv3 : (mkPart rows).maxTs ≤ st.tr.maxTimestamp) :
    let pw : partWrapper :=
      { mkPart rows with refCount := 1, hasMP := true, isInMerge := false }
    let st1 : IngestState := { st with smallParts := st.smallParts ++ [pw] }
    (st.smallParts.length + 1 ≤ maxSmallPartsPerPartition →
      addRowsPart mkPart mergeFn st rows = (some st1, [])) ∧
    (maxSmallPartsPerPartition < st.smallParts.length + 1 →
      (addRowsPart mkPart mergeFn st rows).2 = [false] ∧
      (∀ st2, mergeFn false st1 = (MergeOutcome.ok, st2) →
        addRowsPart mkPart mergeFn st rows =
          (some { st2 with smallAssistedMerges := st2.smallAssistedMerges + 1 }, [false])) ∧
      (∀ st2, mergeFn false st1 = (MergeOutcome.nothingToMerge, st2) →
        addRowsPart mkPart mergeFn st rows = (some st2, [false])) ∧
      (∀ st2, mergeFn false st1 = (MergeOutcome.forciblyStopped, st2) →
        addRowsPart mkPart mergeFn st rows = (some st2, [false])) ∧
      (∀ st2, mergeFn false st1 = (MergeOutcome.otherErr, st2) →
        (addRowsPart mkPart mergeFn st rows).1 = none)) ∧
    (st.smallParts.length = maxSmallPartsPerPartition →
      (addRowsPart mkPart mergeFn st rows).2 = [false]) := by
  intro pw st1
  have hlen : st1.smallParts.length = st.smallParts.length + 1 := by
    simp [st1]
  have heval : addRowsPart mkPart mergeFn st rows =
      (if st1.smallParts.length ≤ maxSmallPartsPerPartition then (some st1, [])
       else
        match mergeFn false st1 with
        | (MergeOutcome.ok, st2) =>
          (some { st2 with smallAssistedMerges := st2.smallAssistedMerges + 1 }, [false])
        | (MergeOutcome.nothingToMerge, st2) => (some st2, [false])
        | (MergeOutcome.forciblyStopped, st2) => (some st2, [false])
        | (MergeOutcome.otherErr, _) => (none, [false])) := by
    unfold addRowsPart
    rw [if_neg (by simp [hne]), if_neg (by omega), if_neg (by omega), if_neg (by omega)]
  refine ⟨fun hok => ?_, fun hover => ?_, fun hexact => ?_⟩
  · rw [heval, if_pos (by omega)]
  · rw [heval, if_neg (by omega)]
    refine ⟨?_, fun st2 h => by rw [h], fun st2 h => by rw [h],
      fun st2 h => by rw [h], fun st2 h => by rw [h]⟩
    rcases hm : mergeFn false st1 with ⟨o, st2⟩
    cases o <;> rfl
  · rw [heval, if_neg (by omega)]
    rcases hm : mergeFn false st1 with ⟨o, st2⟩
    cases o <;> rfl

/-- C3 witness. -/
theorem addRowsPart_assist_spec_witness :
    addRowsPart (fun _ => { minTs := 0, maxTs := 0 })
      (fun _ s => (MergeOutcome.nothingToMerge, s))
      { tr := { minTimestamp := 0, maxTimestamp := 10 }, smallParts := [] }
      [{ timestamp := 0 }]
      = (some { tr := { minTimestamp := 0, maxTimestamp := 10 },
                smallParts := [{ minTs := 0, maxTs := 0, refCount := 1, hasMP := true,
                                 isInMerge := false }] }, []) := by
  have h := addRowsPart_assist_spec (fun _ => { minTs := 0, maxTs := 0 })
    (fun _ s => (MergeOutcome.nothingToMerge, s))
    { tr := { minTimestamp := 0, maxTimestamp := 10 }, smallParts := [] }
    [{ timestamp := 0 }] (by simp) (by norm_num) (by norm_num) (by norm_num)
  exact h.1 (by norm_num [maxSmallPartsPerPartition])

/-- C10: `AddRows` with an empty batch returns immediately with the
state unchanged; `addRowsPart` with an empty buffer creates no part; and
a raw-rows flush tick that finds an empty buffer leaves the small-part
list unchanged — no empty in-memory part is ever appended. -/
theorem addRows_empty_frame
    (mkPart : List rawRow → partWrapper)
    (mergeFn : Bool → IngestState → MergeOutcome × IngestState)
    (maxRaw : Nat) (now currentTime : Int) (st : IngestState) (isFinal : Bool) :
    AddRows mkPart mergeFn maxRaw now st [] = some (st, []) ∧
    addRowsPart mkPart mergeFn st [] = (some st, []) ∧
    (st.rawRows = [] →
      ∃ st2, flushRawRows mkPart mergeFn currentTime st isFinal = some (st2, []) ∧
        st2.smallParts = st.smallParts ∧
        st2.smallAssistedMerges = st.smallAssistedMerges) := by
  refine ⟨by simp [AddRows], by simp [addRowsPart], fun hraw => ?_⟩
  unfold flushRawRows
  cases hb : (isFinal || decide (currentTime - st.rawRowsLastFlushTime > rawRowsFlushInterval))
  · exact ⟨st, by simp [hb], rfl, rfl⟩
  · refine ⟨{ st with rawRows := [], rawRowsLastFlushTime := currentTime }, ?_, rfl, rfl⟩
    simp only [hb, hraw]
    simp [addRowsPart]

/-- C10 witness. -/
theorem addRows_empty_frame_witness :
    ∃ st2, flushRawRows (fun _ => {}) (fun _ s => (MergeOutcome.ok, s)) 5
        { tr := { minTimestamp := 0, maxTimestamp := 10 }, smallParts := [],
          rawRows := [] } true = some (st2, []) ∧
      st2.smallParts = [] ∧ st2.smallAssistedMerges = 0 :=
  (addRows_empty_frame (fun _ => {}) (fun _ s => (MergeOutcome.ok, s)) 0 0 5
    { tr := { minTimestamp := 0, maxTimestamp := 10 }, smallParts := [],
      rawRows := [] } true).2.2 rfl

/-- The bit length is at most `k` once `n < 2^k` (and the fuel covers
`k`). -/
theorem bitLenAux_le (fuel : Nat) : ∀ n k : Nat, n < 2 ^ k → k ≤ fuel →
    bitLenAux fuel n ≤ k := by
  induction fuel with
  | zero => intro n k _ _; simp [bitLenAux]
  | succ fuel ih =>
    intro n k hn hk
    rw [bitLenAux]
    by_cases h0 : n = 0
    · simp [h0]
    · rw [if_neg h0]
      have hk1 : 1 ≤ k := by
        by_contra hc
        have : k = 0 := by omega
        subst this
        simp at hn
        omega
      have hhalf : n / 2 < 2 ^ (k - 1) := by
        have hk2 : 2 ^ k = 2 ^ (k - 1) * 2 := by
          rw [← pow_succ (2 : Nat) (k - 1)]
          congr 1
          omega
        omega
      have := ih (n / 2) (k - 1) hhalf (by omega)
      omega

/-- `n < 2^(bitLen n)` whenever `n` fits the fuel. -/
theorem bitLenAux_gt (fuel : Nat) : ∀ n : Nat, n < 2 ^ fuel →
    n < 2 ^ bitLenAux fuel n := by
  induction fuel with
  | zero => intro n hn; simpa [bitLenAux] using hn
  | succ fuel ih =>
    intro n hn
    rw [bitLenAux]
    by_cases h0 : n = 0
    · simp [h0]
    · rw [if_neg h0]
      have hhalf : n / 2 < 2 ^ fuel := by
        have : 2 ^ (fuel + 1) = 2 * 2 ^ fuel := by rw [pow_succ]; ring
        omega
      have hb := ih (n / 2) hhalf
      have : 2 ^ (bitLenAux fuel (n / 2) + 1) = 2 * 2 ^ bitLenAux fuel (n / 2) := by
        rw [pow_succ]; ring
      omega

/-- When `maxRaw ≤ 2^18`, the pool's rounded size is at least `maxRaw`,
so fresh buffers can hold a full `maxRawRowsPerPartition`-row batch. -/
theorem rawRowsSizeRounded_ge (maxRaw : Nat) (h1 : 1 ≤ maxRaw)
    (h2 : maxRaw ≤ 2 ^ 18) : maxRaw ≤ rawRowsSizeRounded maxRaw := by
  have hle : bitLen (maxRaw - 1) ≤ 18 :=
    bitLenAux_le 64 (maxRaw - 1) 18 (by omega) (by omega)
  have hgt : maxRaw - 1 < 2 ^ bitLen (maxRaw - 1) :=
    bitLenAux_gt 64 (maxRaw - 1)
      (by
        have hp : (2:Nat) ^ 18 ≤ 2 ^ 64 := by norm_num
        omega)
  show maxRaw ≤ 2 ^ rawRowsBucketIdx maxRaw
  show maxRaw ≤ 2 ^ (if bitLen (maxRaw - 1) ≥ 19 then 18 else bitLen (maxRaw - 1))
  rw [if_neg (by omega)]
  omega

/-- C8 counterexample: with `maxRawRowsPerPartition = 500000` (a value
`getMaxRawRowsPerPartition` produces on a 4 GiB-class memory budget and
inside its `[1e4, 5e5]` clamp range), fresh pool buffers only hold
`2^18 = 262144` rows, so one `AddRows` call with exactly
`maxRawRowsPerPartition` rows against a full buffer of capacity
`maxRawRowsPerPartition` performs two buffer swaps, not at most one. -/
theorem addRowsLoop_succ (fc fuel bufCap bufLen rows : Nat) :
    addRowsLoop fc (fuel + 1) bufCap bufLen rows =
      if bufCap - bufLen ≥ rows then some 0
      else
        match addRowsLoop fc fuel fc 0 (rows - (bufCap - bufLen)) with
        | none => none
        | some swaps => some (swaps + 1) := rfl

theorem addRows_swaps_counterexample :
    getMaxRawRowsPerPartition 4096000000 sizeofRawRow = 500000 ∧
    rawRowsSizeRounded 500000 = 262144 ∧
    addRowsSwaps 500000 500000 500000 500000 = some 2 ∧
    addRowsSwaps 500000 500000 500000 500000 ≠ some 0 ∧
    addRowsSwaps 500000 500000 500000 500000 ≠ some 1 := by
  have hs : rawRowsSizeRounded 500000 = 262144 := by decide
  have key : addRowsSwaps 500000 500000 500000 500000 = some 2 := by
    unfold addRowsSwaps
    rw [hs]
    rw [show (500000 + 2 : Nat) = 500001 + 1 by norm_num]
    rw [addRowsLoop_succ]
    rw [if_neg (by norm_num : ¬ (500000 - 500000 ≥ 500000 : Prop))]
    rw [show (500000 - (500000 - 500000) : Nat) = 500000 by norm_num]
    rw [show (500001 : Nat) = 500000 + 1 by norm_num]
    rw [addRowsLoop_succ]
    rw [if_neg (by norm_num : ¬ (262144 - 0 ≥ 500000 : Prop))]
    rw [show (500000 - (262144 - 0) : Nat) = 237856 by norm_num]
    rw [show (500000 : Nat) = 499999 + 1 by norm_num]
    rw [addRowsLoop_succ]
    rw [if_pos (by norm_num : (262144 - 0 ≥ 237856 : Prop))]
  exact ⟨by decide, hs, key, by rw [key]; decide, by rw [key]; decide⟩

/-- C8 (amended): a single `AddRows` call with a batch of exactly
`maxRawRowsPerPartition` rows performs at most one buffer swap —
zero when the batch fits the remaining capacity, otherwise exactly one,
after which the remainder fits the fresh buffer — PROVIDED
`maxRawRowsPerPartition ≤ 2^18`, so that the size-bucketed pool (whose
bucket index is capped at 18) hands out fresh buffers of at least
`maxRawRowsPerPartition` capacity.  For larger configured values the
fresh buffers hold only `2^18` rows and a single call can swap twice. -/
theorem addRows_single_swap_amended
    (maxRaw bufCap bufLen : Nat)
    (h1 : 1 ≤ maxRaw) (hcap : maxRaw ≤ 2 ^ 18)
    (hfill : bufLen ≤ bufCap) (hbig : maxRaw ≤ bufCap) :
    (maxRaw ≤ bufCap - bufLen → addRowsSwaps maxRaw bufCap bufLen maxRaw = some 0) ∧
    (bufCap - bufLen < maxRaw → addRowsSwaps maxRaw bufCap bufLen maxRaw = some 1) := by
  have hfc : maxRaw ≤ rawRowsSizeRounded maxRaw := rawRowsSizeRounded_ge maxRaw h1 hcap
  constructor
  · intro hge
    show addRowsLoop (rawRowsSizeRounded maxRaw) (maxRaw + 1 + 1) bufCap bufLen maxRaw = some 0
    simp only [addRowsLoop]
    rw [if_pos (show bufCap - bufLen ≥ maxRaw from hge)]
  · intro hlt
    show addRowsLoop (rawRowsSizeRounded maxRaw) (maxRaw + 1 + 1) bufCap bufLen maxRaw = some 1
    simp only [addRowsLoop]
    rw [if_neg (show ¬ bufCap - bufLen ≥ maxRaw by omega),
      if_pos (show rawRowsSizeRounded maxRaw - 0 ≥ maxRaw - (bufCap - bufLen) by omega)]

/-- C8 amended witness. -/
theorem addRows_single_swap_amended_witness :
    addRowsSwaps 262144 262144 100000 262144 = some 1 ∧
    addRowsSwaps 262144 262144 0 262144 = some 0 :=
  ⟨(addRows_single_swap_amended 262144 262144 100000 (by norm_num) (by norm_num)
      (by norm_num) (by norm_num)).2 (by norm_num),
   (addRows_single_swap_amended 262144 262144 0 (by norm_num) (by norm_num)
      (by norm_num) (by norm_num)).1 (by norm_num)⟩

/-- `validatePath` succeeds, returning the canonical path, exactly on
paths whose canonical form starts with either canonical prefix. -/
theorem validatePath_ok (abs : String → String) (p1 p2 path : String)
    (h : (strStarts (abs path) (abs p1 ++ "/")
          || strStarts (abs path) (abs p2 ++ "/")) = true) :
    validatePath abs p1 p2 path = Except.ok (abs path) := by
  unfold validatePath
  rw [if_pos h]

/-- `validatePath` fails on any other path. -/
theorem validatePath_err (abs : String → String) (p1 p2 path : String)
    (h : (strStarts (abs path) (abs p1 ++ "/")
          || strStarts (abs path) (abs p2 ++ "/")) = false) :
    ∃ e, validatePath abs p1 p2 path = Except.error e := by
  unfold validatePath
  rw [if_neg (by simp [h])]
  exact ⟨_, rfl⟩

/-- The remove loop applies `removeAllFS` to each canonical path in
order when every path validates. -/
theorem applyRmPaths_ok (abs : String → String) (p1 p2 : String) :
    ∀ (rmPaths : List String) (fs : FS),
      (∀ p ∈ rmPaths, (strStarts (abs p) (abs p1 ++ "/")
          || strStarts (abs p) (abs p2 ++ "/")) = true) →
      applyRmPaths abs p1 p2 rmPaths fs = Except.ok (specRmApplied abs rmPaths fs) := by
  intro rmPaths
  induction rmPaths with
  | nil => intro fs _; rfl
  | cons p rest ih =>
    intro fs hall
    rw [applyRmPaths, validatePath_ok abs p1 p2 p (hall p (by simp))]
    show applyRmPaths abs p1 p2 rest (removeAllFS (abs p) fs)
        = Except.ok (specRmApplied abs (p :: rest) fs)
    rw [ih (removeAllFS (abs p) fs) (fun q hq => hall q (by simp [hq]))]
    rfl

/-- The remove loop fails when some path does not validate. -/
theorem applyRmPaths_err (abs : String → String) (p1 p2 : String) :
    ∀ (rmPaths : List String) (fs : FS),
      (∃ p ∈ rmPaths, (strStarts (abs p) (abs p1 ++ "/")
          || strStarts (abs p) (abs p2 ++ "/")) = false) →
      ∃ e, applyRmPaths abs p1 p2 rmPaths fs = Except.error e := by
  intro rmPaths
  induction rmPaths with
  | nil => intro fs h; simp at h
  | cons p rest ih =>
    intro fs h
    cases hc : (strStarts (abs p) (abs p1 ++ "/") || strStarts (abs p) (abs p2 ++ "/"))
    · obtain ⟨e, he⟩ := validatePath_err abs p1 p2 p hc
      rw [applyRmPaths, he]
      exact ⟨_, rfl⟩
    · rw [applyRmPaths, validatePath_ok abs p1 p2 p hc]
      apply ih
      rcases h with ⟨q, hq, hqf⟩
      rcases List.mem_cons.mp hq with rfl | hq2
      · rw [hc] at hqf; cases hqf
      · exact ⟨q, hq2, hqf⟩

/-- A non-empty string has positive length. -/
theorem length_pos_of_ne (s : String) (h : s ≠ "") : s.length > 0 := by
  cases s with
  | mk cs =>
    cases cs with
    | nil => exact absurd rfl h
    | cons a l => simp [String.length]

/-- C1: for every parsed transaction file (remove lines `rmPaths`, then
a terminal `src -> dst` line), `runTransaction` fails when any listed
path — a remove path, the source, or a non-empty destination — does not
canonicalize to a path under `smallPartsPath/` or `bigPartsPath/`.  When
every listed path validates it removes every remove path (missing paths
are not errors), then: empty `dst` removes `src`; non-empty `dst`
renames `src` to `dst` when `src` exists, succeeds changing nothing when
only `dst` exists, and fails when neither exists; and on success the
transaction file itself is deleted. -/
theorem runTransaction_spec
    (abs : String → String) (pathPrefix1 pathPrefix2 txnPath data : String) (fs : FS)
    (rmPaths : List String) (srcPath dstPath : String)
    (hparse : parseTxn data = some (rmPaths, srcPath, dstPath))
    (habs1 : abs pathPrefix1 = pathPrefix1) (habs2 : abs pathPrefix2 = pathPrefix2) :
    ((¬ ∀ p ∈ specListedPaths rmPaths srcPath dstPath,
        specValidPath abs pathPrefix1 pathPrefix2 p = true) →
      ∃ e, runTransaction abs pathPrefix1 pathPrefix2 txnPath data fs = Except.error e) ∧
    ((∀ p ∈ specListedPaths rmPaths srcPath dstPath,
        specValidPath abs pathPrefix1 pathPrefix2 p = true) →
      (dstPath ≠ "" → specRmApplied abs rmPaths fs (abs srcPath) = false →
        specRmApplied abs rmPaths fs (abs dstPath) = false →
        ∃ e, runTransaction abs pathPrefix1 pathPrefix2 txnPath data fs = Except.error e) ∧
      ((dstPath = "" ∨ specRmApplied abs rmPaths fs (abs srcPath) = true ∨
          specRmApplied abs rmPaths fs (abs dstPath) = true) →
        specMoveApplied abs srcPath dstPath (specRmApplied abs rmPaths fs) txnPath = true →
        runTransaction abs pathPrefix1 pathPrefix2 txnPath data fs =
          Except.ok (removeFileFS txnPath
            (specMoveApplied abs srcPath dstPath (specRmApplied abs rmPaths fs))))) := by
  have hv : ∀ p : String, specValidPath abs pathPrefix1 pathPrefix2 p =
      (strStarts (abs p) (abs pathPrefix1 ++ "/")
        || strStarts (abs p) (abs pathPrefix2 ++ "/")) := by
    intro p
    unfold specValidPath
    rw [habs1, habs2]
  have hsrc_listed : srcPath ∈ specListedPaths rmPaths srcPath dstPath := by
    simp [specListedPaths]
  have hrm_listed : ∀ p ∈ rmPaths, p ∈ specListedPaths rmPaths srcPath dstPath := by
    intro p hp
    simp [specListedPaths, hp]
  have hdst_listed : dstPath ≠ "" → dstPath ∈ specListedPaths rmPaths srcPath dstPath := by
    intro hne
    simp [specListedPaths, hne]
  constructor
  · intro hnall
    push_neg at hnall
    obtain ⟨p, hp, hpv⟩ := hnall
    have hpv2 : specValidPath abs pathPrefix1 pathPrefix2 p = false := by
      cases h : specValidPath abs pathPrefix1 pathPrefix2 p
      · rfl
      · exact absurd h hpv
    unfold runTransaction
    simp only [hparse]
    by_cases hrm : ∃ q ∈ rmPaths, specValidPath abs pathPrefix1 pathPrefix2 q = false
    · obtain ⟨q, hq, hqv⟩ := hrm
      rw [hv] at hqv
      obtain ⟨e, he⟩ := applyRmPaths_err abs pathPrefix1 pathPrefix2 rmPaths fs ⟨q, hq, hqv⟩
      simp only [he]
      exact ⟨_, rfl⟩
    · push_neg at hrm
      have hrmall : ∀ q ∈ rmPaths,
          (strStarts (abs q) (abs pathPrefix1 ++ "/")
            || strStarts (abs q) (abs pathPrefix2 ++ "/")) = true := by
        intro q hq
        rw [← hv]
        cases h : specValidPath abs pathPrefix1 pathPrefix2 q
        · exact absurd h (hrm q hq)
        · rfl
      simp only [applyRmPaths_ok abs pathPrefix1 pathPrefix2 rmPaths fs hrmall]
      by_cases hsv : specValidPath abs pathPrefix1 pathPrefix2 srcPath = true
      · simp only [validatePath_ok abs pathPrefix1 pathPrefix2 srcPath
          (by rw [← hv]; exact hsv)]
        have hpnotrm : p ∉ rmPaths := by
          intro hcon
          have := hrmall p hcon
          rw [← hv] at this
          rw [this] at hpv2
          cases hpv2
        have hpnotsrc : p ≠ srcPath := by
          intro hcon
          rw [hcon] at hpv2
          rw [hpv2] at hsv
          cases hsv
        have hdne : dstPath ≠ "" ∧ p = dstPath := by
          rcases List.mem_append.mp hp with hp1 | hp2
          · exact absurd hp1 hpnotrm
          · rcases List.mem_cons.mp hp2 with h1 | hp3
            · exact absurd h1 hpnotsrc
            · by_cases hz : dstPath = ""
              · rw [if_pos hz] at hp3
                simp at hp3
              · rw [if_neg hz] at hp3
                exact ⟨hz, List.mem_singleton.mp hp3⟩
        have hlen : dstPath.length > 0 := length_pos_of_ne dstPath hdne.1
        rw [if_pos hlen]
        have hdv : (strStarts (abs dstPath) (abs pathPrefix1 ++ "/")
            || strStarts (abs dstPath) (abs pathPrefix2 ++ "/")) = false := by
          rw [← hv, ← hdne.2]
          exact hpv2
        obtain ⟨e, he⟩ := validatePath_err abs pathPrefix1 pathPrefix2 dstPath hdv
        simp only [he]
        exact ⟨_, rfl⟩
      · have hsv2 : (strStarts (abs srcPath) (abs pathPrefix1 ++ "/")
            || strStarts (abs srcPath) (abs pathPrefix2 ++ "/")) = false := by
          rw [← hv]
          cases h : specValidPath abs pathPrefix1 pathPrefix2 srcPath
          · rfl
          · exact absurd h hsv
        obtain ⟨e, he⟩ := validatePath_err abs pathPrefix1 pathPrefix2 srcPath hsv2
        simp only [he]
        exact ⟨_, rfl⟩
  · intro hall
    have happly := applyRmPaths_ok abs pathPrefix1 pathPrefix2 rmPaths fs
      (fun q hq => by rw [← hv]; exact hall q (hrm_listed q hq))
    have hsrcok := validatePath_ok abs pathPrefix1 pathPrefix2 srcPath
      (by rw [← hv]; exact hall srcPath hsrc_listed)
    constructor
    · intro hdne hs hd
      unfold runTransaction
      simp only [hparse, happly, hsrcok]
      rw [if_pos (length_pos_of_ne dstPath hdne)]
      simp only [validatePath_ok abs pathPrefix1 pathPrefix2 dstPath
        (by rw [← hv]; exact hall dstPath (hdst_listed hdne))]
      rw [if_neg (by rw [hs]; simp), if_neg (by rw [hd]; simp)]
      exact ⟨_, rfl⟩
    · intro hmove htxn
      unfold runTransaction
      simp only [hparse, happly, hsrcok]
      by_cases hdz : dstPath = ""
      · rw [if_neg (by rw [hdz]; decide)]
        have hmv : specMoveApplied abs srcPath dstPath (specRmApplied abs rmPaths fs)
            = removeAllFS (abs srcPath) (specRmApplied abs rmPaths fs) := by
          unfold specMoveApplied
          rw [if_pos hdz]
        rw [hmv] at htxn
        rw [hmv]
        simp [htxn]
      · rw [if_pos (length_pos_of_ne dstPath hdz)]
        simp only [validatePath_ok abs pathPrefix1 pathPrefix2 dstPath
          (by rw [← hv]; exact hall dstPath (hdst_listed hdz))]
        by_cases hs : specRmApplied abs rmPaths fs (abs srcPath) = true
        · have hmv : specMoveApplied abs srcPath dstPath (specRmApplied abs rmPaths fs)
              = renameFS (abs srcPath) (abs dstPath) (specRmApplied abs rmPaths fs) := by
            unfold specMoveApplied
            rw [if_neg hdz, if_pos hs]
          rw [hmv] at htxn
          rw [if_pos hs, hmv]
          simp [htxn]
        · have hs0 : specRmApplied abs rmPaths fs (abs srcPath) = false := by
            cases h : specRmApplied abs rmPaths fs (abs srcPath)
            · rfl
            · exact absurd h hs
          have hd : specRmApplied abs rmPaths fs (abs dstPath) = true := by
            rcases hmove with h1 | h2 | h3
            · exact absurd h1 hdz
            · rw [h2] at hs0; cases hs0
            · exact h3
          have hmv : specMoveApplied abs srcPath dstPath (specRmApplied abs rmPaths fs)
              = specRmApplied abs rmPaths fs := by
            unfold specMoveApplied
            rw [if_neg hdz, if_neg (by rw [hs0]; simp)]
          rw [hmv] at htxn
          rw [if_neg (by rw [hs0]; simp), if_pos hd, hmv]
          simp [htxn]

/-- C1 witness: a two-line transaction renaming `/s/tmp/X` to `/s/p`
after removing `/s/a`, on a filesystem where all three listed paths
exist. -/
theorem runTransaction_spec_witness :
    runTransaction id "/s" "/b" "/s/txn/0" "/s/a\n/s/tmp/X -> /s/p\n"
        (fun q => (q == "/s/a") || (q == "/s/tmp/X") || (q == "/s/txn/0")) =
      Except.ok (removeFileFS "/s/txn/0"
        (specMoveApplied id "/s/tmp/X" "/s/p"
          (specRmApplied id ["/s/a"]
            (fun q => (q == "/s/a") || (q == "/s/tmp/X") || (q == "/s/txn/0"))))) :=
  ((runTransaction_spec id "/s" "/b" "/s/txn/0" "/s/a\n/s/tmp/X -> /s/p\n"
      (fun q => (q == "/s/a") || (q == "/s/tmp/X") || (q == "/s/txn/0"))
      ["/s/a"] "/s/tmp/X" "/s/p" (by decide) rfl rfl).2 (by decide)).2
    (Or.inr (Or.inl (by decide))) (by decide)

/-- The wrapping `uint64` sum: generalized fold invariant. -/
theorem outRowsCount_go (heap : Nat → partWrapper) :
    ∀ (pws : List Nat) (s : Nat),
      pws.foldl (fun a idv => (a + (heap idv).rows) % 2 ^ 64) (s % 2 ^ 64)
        = (s + ((pws.map fun idv => (heap idv).rows).sum)) % 2 ^ 64 := by
  intro pws
  induction pws with
  | nil => intro s; simp
  | cons a l ih =>
    intro s
    rw [List.foldl_cons, Nat.mod_add_mod, ih (s + (heap a).rows)]
    rw [List.map_cons, List.sum_cons]
    congr 1
    omega

/-- `outRowsCount` is the sum of the inputs' rows counts mod `2^64`. -/
theorem outRowsCount_eq (heap : Nat → partWrapper) (pws : List Nat) :
    outRowsCount heap pws = ((pws.map fun idv => (heap idv).rows).sum) % 2 ^ 64 := by
  have h := outRowsCount_go heap pws 0
  rw [Nat.zero_mod] at h
  rw [outRowsCount, h, Nat.zero_add]

theorem decRefAll_cons (heap : Nat → partWrapper) (a : Nat) (l : List Nat) :
    decRefAll (a :: l) heap =
      (decRef (heap a)).bind fun pw => decRefAll l (updHeap heap a pw) := rfl

/-- `decRefAll` succeeds on distinct handles with sane reference counts,
decrements each count by one and preserves the merge flags and all other
heap entries. -/
theorem decRefAll_spec :
    ∀ (pws : List Nat) (heap : Nat → partWrapper),
      pws.Nodup →
      (∀ idv ∈ pws, 1 ≤ (heap idv).refCount ∧ (heap idv).refCount < 2 ^ 63) →
      ∃ heap2, decRefAll pws heap = some heap2 ∧
        (∀ idv ∈ pws, (heap2 idv).refCount = (heap idv).refCount - 1 ∧
          (heap2 idv).isInMerge = (heap idv).isInMerge) ∧
        (∀ j, j ∉ pws → heap2 j = heap j) := by
  intro pws
  induction pws with
  | nil => exact fun heap _ _ => ⟨heap, rfl, by simp, fun j _ => rfl⟩
  | cons a l ih =>
    intro heap hnd hrc
    obtain ⟨pw1, hdec, hrc1, hflag1, _, _⟩ :=
      decRef_bounds (heap a) (hrc a (by simp)).1 (hrc a (by simp)).2
    have hal : a ∉ l := (List.nodup_cons.mp hnd).1
    have hnd2 : l.Nodup := (List.nodup_cons.mp hnd).2
    have hrc2 : ∀ idv ∈ l, 1 ≤ (updHeap heap a pw1 idv).refCount ∧
        (updHeap heap a pw1 idv).refCount < 2 ^ 63 := by
      intro idv hidv
      have hne : idv ≠ a := fun hcon => hal (hcon ▸ hidv)
      rw [updHeap, if_neg hne]
      exact hrc idv (by simp [hidv])
    obtain ⟨heap2, hrec, hprops, hother⟩ := ih (updHeap heap a pw1) hnd2 hrc2
    refine ⟨heap2, ?_, ?_, ?_⟩
    · rw [decRefAll_cons, hdec]
      exact hrec
    · intro idv hidv
      rcases List.mem_cons.mp hidv with rfl | hl
      · have h2 := hother idv hal
        rw [h2, updHeap, if_pos rfl]
        exact ⟨hrc1, hflag1⟩
      · have h2 := hprops idv hl
        have hne : idv ≠ a := fun hcon => hal (hcon ▸ hl)
        rw [updHeap, if_neg hne] at h2
        exact h2
    · intro j hj
      have hja : j ≠ a := fun hcon => hj (by simp [hcon])
      have hjl : j ∉ l := fun hcon => hj (by simp [hcon])
      rw [hother j hjl, updHeap, if_neg hja]

/-- The deferred flag clearing succeeds when every handle still carries
its flag, and clears exactly those flags. -/
theorem clearFlags_spec :
    ∀ (pws : List Nat) (heap : Nat → partWrapper),
      pws.Nodup →
      (∀ idv ∈ pws, (heap idv).isInMerge = true) →
      ∃ heap2, clearFlags pws heap = some heap2 ∧
        (∀ idv ∈ pws, (heap2 idv).isInMerge = false ∧
          (heap2 idv).refCount = (heap idv).refCount) ∧
        (∀ j, j ∉ pws → heap2 j = heap j) := by
  intro pws
  induction pws with
  | nil => exact fun heap _ _ => ⟨heap, rfl, by simp, fun j _ => rfl⟩
  | cons a l ih =>
    intro heap hnd hflags
    have hal : a ∉ l := (List.nodup_cons.mp hnd).1
    have hupd : ∀ idv ∈ l, (updHeap heap a { heap a with isInMerge := false } idv).isInMerge = true := by
      intro idv hidv
      have hne : idv ≠ a := fun hcon => hal (hcon ▸ hidv)
      rw [updHeap, if_neg hne]
      exact hflags idv (by simp [hidv])
    obtain ⟨heap2, hrec, hcleared, hother⟩ :=
      ih (updHeap heap a { heap a with isInMerge := false }) (List.nodup_cons.mp hnd).2 hupd
    refine ⟨heap2, ?_, ?_, ?_⟩
    · show (if (heap a).isInMerge then
            clearFlags l (updHeap heap a { heap a with isInMerge := false })
          else none) = some heap2
      rw [if_pos (hflags a (by simp))]
      exact hrec
    · intro idv hidv
      rcases List.mem_cons.mp hidv with rfl | hl
      · rw [hother idv hal, updHeap, if_pos rfl]
        exact ⟨rfl, rfl⟩
      · have h2 := hcleared idv hl
        have hne : idv ≠ a := fun hcon => hal (hcon ▸ hl)
        rw [updHeap, if_neg hne] at h2
        exact h2
    · intro j hj
      have hja : j ≠ a := fun hcon => hj (by simp [hcon])
      have hjl : j ∉ l := fun hcon => hj (by simp [hcon])
      rw [hother j hjl, updHeap, if_neg hja]

/-- The deferred flag clearing panics as soon as some handle of the
merge set has lost its flag. -/
theorem clearFlags_none :
    ∀ (pws : List Nat) (heap : Nat → partWrapper),
      (∃ idv ∈ pws, (heap idv).isInMerge = false) →
      clearFlags pws heap = none := by
  intro pws
  induction pws with
  | nil => intro heap h; simp at h
  | cons a l ih =>
    intro heap h
    by_cases ha : (heap a).isInMerge = true
    · show (if (heap a).isInMerge then
            clearFlags l (updHeap heap a { heap a with isInMerge := false })
          else none) = none
      rw [if_pos ha]
      apply ih
      obtain ⟨idv, hidv, hflag⟩ := h
      rcases List.mem_cons.mp hidv with rfl | hl
      · rw [ha] at hflag; cases hflag
      · refine ⟨idv, hl, ?_⟩
        have hne : idv = a ∨ idv ≠ a := em _
        rcases hne with rfl | hne
        · rw [updHeap, if_pos rfl]
        · rw [updHeap, if_neg hne]
          exact hflag
    · show (if (heap a).isInMerge then
            clearFlags l (updHeap heap a { heap a with isInMerge := false })
          else none) = none
      rw [if_neg ha]

/-- `removeParts` as a filter plus a count (generalized fold form). -/
theorem removeParts_go (m : List Nat) :
    ∀ (l : List Nat) (acc1 : List Nat) (acc2 : Nat),
      l.foldl
        (fun acc idv =>
          if idv ∈ m then (acc.1, acc.2 + 1) else (acc.1 ++ [idv], acc.2))
        (acc1, acc2)
        = (acc1 ++ l.filter (fun idv => decide (idv ∉ m)),
           acc2 + (l.filter (fun idv => decide (idv ∈ m))).length) := by
  intro l
  induction l with
  | nil => intro acc1 acc2; simp
  | cons a t ih =>
    intro acc1 acc2
    rw [List.foldl_cons]
    by_cases ha : a ∈ m
    · rw [if_pos ha, ih]
      simp [List.filter_cons, ha]
      omega
    · rw [if_neg ha, ih]
      simp [List.filter_cons, ha]

/-- `removeParts` keeps, in order, exactly the handles not in the merge
set, and counts the dropped ones. -/
theorem removeParts_eq (l m : List Nat) :
    removeParts l m = (l.filter (fun idv => decide (idv ∉ m)),
      (l.filter (fun idv => decide (idv ∈ m))).length) := by
  have h := removeParts_go m l [] 0
  simpa [removeParts] using h

/-- Membership in the kept list of `removeParts`. -/
theorem mem_removeParts (l m : List Nat) (idv : Nat) :
    idv ∈ (removeParts l m).1 ↔ idv ∈ l ∧ idv ∉ m := by
  rw [removeParts_eq]
  simp

/-- Evaluation of the `mergeParts` body on the successful path with an
all-tombstoned result (`ph.RowsCount = 0`): the destination is empty, no
part is opened or installed, the inputs are removed and released. -/
theorem mergePartsCore_zero (env : MergeEnv) (st : PtState) (pws : List Nat)
    (hro : readersOk env st.heap pws = true)
    (hbsw : env.bswInitErr = false)
    (hmr : env.mergeResult = Except.ok 0)
    (hwt : env.writeTxnErr = false)
    (hrt : env.runTxnErr = false)
    (hnd : pws.Nodup)
    (hrem : (removeParts st.smallParts pws).2 + (removeParts st.bigParts pws).2 = pws.length)
    (hrc : ∀ idv ∈ pws, 1 ≤ (st.heap idv).refCount ∧ (st.heap idv).refCount < 2 ^ 63) :
    ∃ heap2,
      decRefAll pws st.heap = some heap2 ∧
      (∀ idv ∈ pws, (heap2 idv).refCount = (st.heap idv).refCount - 1 ∧
        (heap2 idv).isInMerge = (st.heap idv).isInMerge) ∧
      (∀ j, j ∉ pws → heap2 j = st.heap j) ∧
      mergePartsCore env st pws = some
        { res := Except.ok (),
          state :=
            { st with
              heap := heap2,
              smallParts := (removeParts st.smallParts pws).1,
              bigParts := (removeParts st.bigParts pws).1,
              mergeIdx := (st.mergeIdx + 1) % 2 ^ 64 },
          bswCall := some
            ((if decide (outRowsCount st.heap pws > maxRowsPerSmallPart) = true
                then st.bigPartsPath else st.smallPartsPath)
              ++ "/tmp/" ++ hex16 ((st.mergeIdx + 1) % 2 ^ 64),
             decide (outRowsCount st.heap pws > maxRowsPerSmallPart),
             getCompressLevelForRowsCount (outRowsCount st.heap pws)),
          txnTerminal := some
            ((if decide (outRowsCount st.heap pws > maxRowsPerSmallPart) = true
                then st.bigPartsPath else st.smallPartsPath)
              ++ "/tmp/" ++ hex16 ((st.mergeIdx + 1) % 2 ^ 64), ""),
          openedDst := none,
          decRefed := pws } := by
  obtain ⟨heap2, hdall, hprops, hother⟩ := decRefAll_spec pws st.heap hnd hrc
  refine ⟨heap2, hdall, hprops, hother, ?_⟩
  unfold mergePartsCore
  rw [hro]
  simp only [Bool.not_true, Bool.false_eq_true, if_false, hbsw, hmr, hwt, hrt]
  simp only [gt_iff_lt, lt_self_iff_false, if_false, String.length_empty,
    decide_False, Bool.false_and, hnd, decide_True, Bool.not_true]
  rw [if_neg (show ¬ ((removeParts st.smallParts pws).2
      + (removeParts st.bigParts pws).2 ≠ pws.length) from by omega)]
  rw [hdall]
  simp only [Bool.false_eq_true, if_false]

/-- Evaluation of the `mergeParts` body on the fully successful path
with a non-empty result: the tier decision `isBig` alone selects the
destination directory, the `nocache` hint and the list the new handle is
installed into. -/
theorem mergePartsCore_pos (env : MergeEnv) (st : PtState) (pws : List Nat) (phRows : Nat)
    (hro : readersOk env st.heap pws = true)
    (hbsw : env.bswInitErr = false)
    (hmr : env.mergeResult = Except.ok phRows)
    (hph : 0 < phRows)
    (hwt : env.writeTxnErr = false)
    (hrt : env.runTxnErr = false)
    (hop : env.openPartErr = false)
    (hnd : pws.Nodup)
    (hrem : (removeParts st.smallParts pws).2 + (removeParts st.bigParts pws).2 = pws.length)
    (hrc : ∀ idv ∈ pws, 1 ≤ (st.heap idv).refCount ∧ (st.heap idv).refCount < 2 ^ 63)
    (hfresh : env.newId ∉ pws) :
    ∃ heap2,
      decRefAll pws (updHeap st.heap env.newId
        { id := env.newId, refCount := 1, hasMP := false, pOpen := true,
          isInMerge := false, rows := phRows, minTs := 0, maxTs := 0,
          path := (if decide (outRowsCount st.heap pws > maxRowsPerSmallPart) = true
              then st.bigPartsPath else st.smallPartsPath) ++ "/" ++ env.phName })
        = some heap2 ∧
      (∀ idv ∈ pws, (heap2 idv).refCount = (st.heap idv).refCount - 1 ∧
        (heap2 idv).isInMerge = (st.heap idv).isInMerge) ∧
      mergePartsCore env st pws = some
        { res := Except.ok (),
          state :=
            { st with
              heap := heap2,
              smallParts :=
                if decide (outRowsCount st.heap pws > maxRowsPerSmallPart) = true
                then (removeParts st.smallParts pws).1
                else (removeParts st.smallParts pws).1 ++ [env.newId],
              bigParts :=
                if decide (outRowsCount st.heap pws > maxRowsPerSmallPart) = true
                then (removeParts st.bigParts pws).1 ++ [env.newId]
                else (removeParts st.bigParts pws).1,
              mergeIdx := (st.mergeIdx + 1) % 2 ^ 64 },
          bswCall := some
            ((if decide (outRowsCount st.heap pws > maxRowsPerSmallPart) = true
                then st.bigPartsPath else st.smallPartsPath)
              ++ "/tmp/" ++ hex16 ((st.mergeIdx + 1) % 2 ^ 64),
             decide (outRowsCount st.heap pws > maxRowsPerSmallPart),
             getCompressLevelForRowsCount (outRowsCount st.heap pws)),
          txnTerminal := some
            ((if decide (outRowsCount st.heap pws > maxRowsPerSmallPart) = true
                then st.bigPartsPath else st.smallPartsPath)
              ++ "/tmp/" ++ hex16 ((st.mergeIdx + 1) % 2 ^ 64),
             (if decide (outRowsCount st.heap pws > maxRowsPerSmallPart) = true
                then st.bigPartsPath else st.smallPartsPath) ++ "/" ++ env.phName),
          openedDst := some
            ((if decide (outRowsCount st.heap pws > maxRowsPerSmallPart) = true
                then st.bigPartsPath else st.smallPartsPath) ++ "/" ++ env.phName),
          decRefed := pws } := by
  have hdlen : ((if decide (outRowsCount st.heap pws > maxRowsPerSmallPart) = true
      then st.bigPartsPath else st.smallPartsPath) ++ "/" ++ env.phName).length > 0 := by
    simp [String.length_append]
    exact Or.inl (Or.inr (by decide))
  have hrc1 : ∀ idv ∈ pws,
      1 ≤ ((updHeap st.heap env.newId
        { id := env.newId, refCount := 1, hasMP := false, pOpen := true,
          isInMerge := false, rows := phRows, minTs := 0, maxTs := 0,
          path := (if decide (outRowsCount st.heap pws > maxRowsPerSmallPart) = true
              then st.bigPartsPath else st.smallPartsPath) ++ "/" ++ env.phName }) idv).refCount ∧
      ((updHeap st.heap env.newId
        { id := env.newId, refCount := 1, hasMP := false, pOpen := true,
          isInMerge := false, rows := phRows, minTs := 0, maxTs := 0,
          path := (if decide (outRowsCount st.heap pws > maxRowsPerSmallPart) = true
              then st.bigPartsPath else st.smallPartsPath) ++ "/" ++ env.phName }) idv).refCount < 2 ^ 63 := by
    intro idv hidv
    rw [updHeap, if_neg (fun hcon : idv = env.newId => hfresh (hcon ▸ hidv))]
    exact hrc idv hidv
  obtain ⟨heap2, hdall, hprops, hother⟩ := decRefAll_spec pws _ hnd hrc1
  refine ⟨heap2, hdall, ?_, ?_⟩
  · intro idv hidv
    have h := hprops idv hidv
    rw [updHeap, if_neg (fun hcon : idv = env.newId => hfresh (hcon ▸ hidv))] at h
    exact h
  · unfold mergePartsCore
    rw [hro]
    simp only [Bool.not_true, Bool.false_eq_true, if_false, hbsw, hmr, hwt, hrt, hop]
    rw [if_pos hph]
    simp only [Bool.and_false, Bool.false_eq_true, if_false, hnd, decide_True,
      Bool.not_true]
    rw [if_neg (show ¬ ((removeParts st.smallParts pws).2
        + (removeParts st.bigParts pws).2 ≠ pws.length) from by omega)]
    simp only [if_pos hdlen]
    rw [hdall]

/-- `mergeParts` body when a source reader fails to open. -/
theorem mergePartsCore_readersErr (env : MergeEnv) (st : PtState) (pws : List Nat)
    (hro : readersOk env st.heap pws = false) :
    mergePartsCore env st pws =
      some { res := Except.error MergeErr.other, state := st } := by
  unfold mergePartsCore
  rw [hro]
  rfl

/-- `mergeParts` body when the destination writer cannot be created. -/
theorem mergePartsCore_bswErr (env : MergeEnv) (st : PtState) (pws : List Nat)
    (hro : readersOk env st.heap pws = true)
    (hbsw : env.bswInitErr = true) :
    mergePartsCore env st pws =
      some { res := Except.error MergeErr.other,
             state := { st with mergeIdx := (st.mergeIdx + 1) % 2 ^ 64 },
             bswCall := some
               ((if decide (outRowsCount st.heap pws > maxRowsPerSmallPart) = true
                   then st.bigPartsPath else st.smallPartsPath)
                 ++ "/tmp/" ++ hex16 ((st.mergeIdx + 1) % 2 ^ 64),
                decide (outRowsCount st.heap pws > maxRowsPerSmallPart),
                getCompressLevelForRowsCount (outRowsCount st.heap pws)) } := by
  unfold mergePartsCore
  rw [hro, hbsw]
  rfl

/-- `mergeParts` body when `mergeBlockStreams` is forcibly stopped. -/
theorem mergePartsCore_stopped (env : MergeEnv) (st : PtState) (pws : List Nat)
    (hro : readersOk env st.heap pws = true)
    (hbsw : env.bswInitErr = false)
    (hmr : env.mergeResult = Except.error true) :
    mergePartsCore env st pws =
      some { res := Except.error MergeErr.forciblyStopped,
             state := { st with mergeIdx := (st.mergeIdx + 1) % 2 ^ 64 },
             bswCall := some
               ((if decide (outRowsCount st.heap pws > maxRowsPerSmallPart) = true
                   then st.bigPartsPath else st.smallPartsPath)
                 ++ "/tmp/" ++ hex16 ((st.mergeIdx + 1) % 2 ^ 64),
                decide (outRowsCount st.heap pws > maxRowsPerSmallPart),
                getCompressLevelForRowsCount (outRowsCount st.heap pws)) } := by
  unfold mergePartsCore
  rw [hro, hbsw, hmr]
  rfl

/-- `mergeParts` body when `mergeBlockStreams` fails with another
error. -/
theorem mergePartsCore_mergeErr (env : MergeEnv) (st : PtState) (pws : List Nat)
    (hro : readersOk env st.heap pws = true)
    (hbsw : env.bswInitErr = false)
    (hmr : env.mergeResult = Except.error false) :
    mergePartsCore env st pws =
      some { res := Except.error MergeErr.other,
             state := { st with mergeIdx := (st.mergeIdx + 1) % 2 ^ 64 },
             bswCall := some
               ((if decide (outRowsCount st.heap pws > maxRowsPerSmallPart) = true
                   then st.bigPartsPath else st.smallPartsPath)
                 ++ "/tmp/" ++ hex16 ((st.mergeIdx + 1) % 2 ^ 64),
                decide (outRowsCount st.heap pws > maxRowsPerSmallPart),
                getCompressLevelForRowsCount (outRowsCount st.heap pws)) } := by
  unfold mergePartsCore
  rw [hro, hbsw, hmr]
  rfl

/-- `mergeParts` body when writing the transaction file fails. -/
theorem mergePartsCore_writeErr (env : MergeEnv) (st : PtState) (pws : List Nat)
    (phRows : Nat)
    (hro : readersOk env st.heap pws = true)
    (hbsw : env.bswInitErr = false)
    (hmr : env.mergeResult = Except.ok phRows)
    (hwt : env.writeTxnErr = true) :
    mergePartsCore env st pws =
      some { res := Except.error MergeErr.other,
             state := { st with mergeIdx := (st.mergeIdx + 1) % 2 ^ 64 },
             bswCall := some
               ((if decide (outRowsCount st.heap pws > maxRowsPerSmallPart) = true
                   then st.bigPartsPath else st.smallPartsPath)
                 ++ "/tmp/" ++ hex16 ((st.mergeIdx + 1) % 2 ^ 64),
                decide (outRowsCount st.heap pws > maxRowsPerSmallPart),
                getCompressLevelForRowsCount (outRowsCount st.heap pws)),
             txnTerminal := some
               ((if decide (outRowsCount st.heap pws > maxRowsPerSmallPart) = true
                   then st.bigPartsPath else st.smallPartsPath)
                 ++ "/tmp/" ++ hex16 ((st.mergeIdx + 1) % 2 ^ 64),
                if phRows > 0 then
                  (if decide (outRowsCount st.heap pws > maxRowsPerSmallPart) = true
                     then st.bigPartsPath else st.smallPartsPath) ++ "/" ++ env.phName
                else "") } := by
  unfold mergePartsCore
  rw [hro, hbsw, hmr, hwt]
  rfl

/-- `mergeParts` body when running the transaction fails. -/
theorem mergePartsCore_runErr (env : MergeEnv) (st : PtState) (pws : List Nat)
    (phRows : Nat)
    (hro : readersOk env st.heap pws = true)
    (hbsw : env.bswInitErr = false)
    (hmr : env.mergeResult = Except.ok phRows)
    (hwt : env.writeTxnErr = false)
    (hrt : env.runTxnErr = true) :
    mergePartsCore env st pws =
      some { res := Except.error MergeErr.other,
             state := { st with mergeIdx := (st.mergeIdx + 1) % 2 ^ 64 },
             bswCall := some
               ((if decide (outRowsCount st.heap pws > maxRowsPerSmallPart) = true
                   then st.bigPartsPath else st.smallPartsPath)
                 ++ "/tmp/" ++ hex16 ((st.mergeIdx + 1) % 2 ^ 64),
                decide (outRowsCount st.heap pws > maxRowsPerSmallPart),
                getCompressLevelForRowsCount (outRowsCount st.heap pws)),
             txnTerminal := some
               ((if decide (outRowsCount st.heap pws > maxRowsPerSmallPart) = true
                   then st.bigPartsPath else st.smallPartsPath)
                 ++ "/tmp/" ++ hex16 ((st.mergeIdx + 1) % 2 ^ 64),
                if phRows > 0 then
                  (if decide (outRowsCount st.heap pws > maxRowsPerSmallPart) = true
                     then st.bigPartsPath else st.smallPartsPath) ++ "/" ++ env.phName
                else "") } := by
  unfold mergePartsCore
  rw [hro, hbsw, hmr, hwt, hrt]
  rfl

/-- `mergeParts` body when opening the merged part fails. -/
theorem mergePartsCore_openErr (env : MergeEnv) (st : PtState) (pws : List Nat)
    (phRows : Nat)
    (hro : readersOk env st.heap pws = true)
    (hbsw : env.bswInitErr = false)
    (hmr : env.mergeResult = Except.ok phRows)
    (hph : 0 < phRows)
    (hwt : env.writeTxnErr = false)
    (hrt : env.runTxnErr = false)
    (hop : env.openPartErr = true) :
    mergePartsCore env st pws =
      some { res := Except.error MergeErr.other,
             state := { st with mergeIdx := (st.mergeIdx + 1) % 2 ^ 64 },
             bswCall := some
               ((if decide (outRowsCount st.heap pws > maxRowsPerSmallPart) = true
                   then st.bigPartsPath else st.smallPartsPath)
                 ++ "/tmp/" ++ hex16 ((st.mergeIdx + 1) % 2 ^ 64),
                decide (outRowsCount st.heap pws > maxRowsPerSmallPart),
                getCompressLevelForRowsCount (outRowsCount st.heap pws)),
             txnTerminal := some
               ((if decide (outRowsCount st.heap pws > maxRowsPerSmallPart) = true
                   then st.bigPartsPath else st.smallPartsPath)
                 ++ "/tmp/" ++ hex16 ((st.mergeIdx + 1) % 2 ^ 64),
                (if decide (outRowsCount st.heap pws > maxRowsPerSmallPart) = true
                   then st.bigPartsPath else st.smallPartsPath) ++ "/" ++ env.phName) } := by
  have hdlen : ((if decide (outRowsCount st.heap pws > maxRowsPerSmallPart) = true
      then st.bigPartsPath else st.smallPartsPath) ++ "/" ++ env.phName).length > 0 := by
    simp [String.length_append]
    exact Or.inl (Or.inr (by decide))
  unfold mergePartsCore
  rw [hro]
  simp only [hbsw, hmr, hwt, hrt, hop]
  rw [if_pos (show phRows > 0 from hph)]
  rw [if_pos (show (decide (((if decide (outRowsCount st.heap pws > maxRowsPerSmallPart) = true
      then st.bigPartsPath else st.smallPartsPath) ++ "/" ++ env.phName).length > 0) && true) = true
    from by rw [Bool.and_true, decide_eq_true_eq]; exact hdlen)]
  rfl

/-- Every branch of the `mergeParts` body returns a result (no panic)
when the merge set is duplicate-free, fully registered, sanely
reference-counted and disjoint from the fresh handle, and every branch
preserves the `isInMerge` flag of every input handle for the deferred
clearing to reset. -/
theorem mergePartsCore_flags (env : MergeEnv) (st : PtState) (pws : List Nat)
    (hnd : pws.Nodup)
    (hrem : (removeParts st.smallParts pws).2 + (removeParts st.bigParts pws).2 = pws.length)
    (hrc : ∀ idv ∈ pws, 1 ≤ (st.heap idv).refCount ∧ (st.heap idv).refCount < 2 ^ 63)
    (hfresh : env.newId ∉ pws) :
    ∃ mr, mergePartsCore env st pws = some mr ∧
      ∀ idv ∈ pws, (mr.state.heap idv).isInMerge = (st.heap idv).isInMerge := by
  cases hro : readersOk env st.heap pws with
  | false => exact ⟨_, mergePartsCore_readersErr env st pws hro, fun idv _ => rfl⟩
  | true =>
    cases hbsw : env.bswInitErr with
    | true => exact ⟨_, mergePartsCore_bswErr env st pws hro hbsw, fun idv _ => rfl⟩
    | false =>
      rcases hmr : env.mergeResult with b | phRows
      · cases b with
        | false => exact ⟨_, mergePartsCore_mergeErr env st pws hro hbsw hmr, fun idv _ => rfl⟩
        | true => exact ⟨_, mergePartsCore_stopped env st pws hro hbsw hmr, fun idv _ => rfl⟩
      · cases hwt : env.writeTxnErr with
        | true =>
          exact ⟨_, mergePartsCore_writeErr env st pws phRows hro hbsw hmr hwt, fun idv _ => rfl⟩
        | false =>
          cases hrt : env.runTxnErr with
          | true =>
            exact ⟨_, mergePartsCore_runErr env st pws phRows hro hbsw hmr hwt hrt,
              fun idv _ => rfl⟩
          | false =>
            rcases Nat.eq_zero_or_pos phRows with rfl | hph
            · obtain ⟨heap2, _, hprops, _, hcore⟩ :=
                mergePartsCore_zero env st pws hro hbsw hmr hwt hrt hnd hrem hrc
              exact ⟨_, hcore, fun idv hidv => (hprops idv hidv).2⟩
            · cases hop : env.openPartErr with
              | true =>
                exact ⟨_, mergePartsCore_openErr env st pws phRows hro hbsw hmr hph hwt hrt hop,
                  fun idv _ => rfl⟩
              | false =>
                obtain ⟨heap2, _, hprops, hcore⟩ :=
                  mergePartsCore_pos env st pws phRows hro hbsw hmr hph hwt hrt hop hnd hrem hrc hfresh
                exact ⟨_, hcore, fun idv hidv => (hprops idv hidv).2⟩

/-- C9: on every return path of `mergeParts` — success with and without
output, reader-open failure, writer-init failure, merge error, forcible
stop, transaction-write or transaction-run failure, and failure to open
the merged part — the deferred function clears the `isInMerge` flag of
every input handle before `mergeParts` returns; and the clearing panics
as soon as it finds a flag already cleared. -/
theorem mergeParts_clearsInMerge (env : MergeEnv) (st : PtState) (pws : List Nat)
    (hne : pws ≠ [])
    (hflag : ∀ idv ∈ pws, (st.heap idv).isInMerge = true)
    (hnd : pws.Nodup)
    (hrem : (removeParts st.smallParts pws).2 + (removeParts st.bigParts pws).2 = pws.length)
    (hrc : ∀ idv ∈ pws, 1 ≤ (st.heap idv).refCount ∧ (st.heap idv).refCount < 2 ^ 63)
    (hfresh : env.newId ∉ pws) :
    (∃ mr, mergeParts env st pws = some mr ∧
      ∀ idv ∈ pws, (mr.state.heap idv).isInMerge = false) ∧
    (∀ heap0 : Nat → partWrapper, (∃ idv ∈ pws, (heap0 idv).isInMerge = false) →
      clearFlags pws heap0 = none) := by
  refine ⟨?_, fun heap0 h => clearFlags_none pws heap0 h⟩
  obtain ⟨mr, hcore, hflags⟩ := mergePartsCore_flags env st pws hnd hrem hrc hfresh
  have hflags2 : ∀ idv ∈ pws, (mr.state.heap idv).isInMerge = true :=
    fun idv h => (hflags idv h).trans (hflag idv h)
  obtain ⟨heap2, hclear, hcleared, _⟩ := clearFlags_spec pws mr.state.heap hnd hflags2
  refine ⟨{ mr with state := { mr.state with heap := heap2 } }, ?_,
    fun idv hidv => (hcleared idv hidv).1⟩
  unfold mergeParts
  rw [if_neg (show ¬ (pws.isEmpty = true) from by
    simp only [List.isEmpty_eq_true]
    exact hne)]
  simp only [hcore, hclear]

/-- Witness for the C9 theorem at a concrete two-part merge set. -/
theorem mergeParts_clearsInMerge_witness :
    (∃ mr, mergeParts
        { readerFileErr := fun _ => false, mergeResult := Except.ok 7, newId := 9 }
        { heap := fun j => { id := j, rows := 5, isInMerge := true },
          smallParts := [0, 1], bigParts := [],
          smallPartsPath := "/s", bigPartsPath := "/b" }
        [0, 1] = some mr ∧
      ∀ idv ∈ [0, 1], (mr.state.heap idv).isInMerge = false) ∧
    (∀ heap0 : Nat → partWrapper, (∃ idv ∈ [0, 1], (heap0 idv).isInMerge = false) →
      clearFlags [0, 1] heap0 = none) :=
  mergeParts_clearsInMerge _ _ _ (by decide) (by decide) (by decide) (by decide)
    (by decide) (by decide)

/-- C4: on a successful merge with non-empty output, `out_rows` is the
(wrapping `uint64`) sum of the inputs' rows counts taken before any
deletion, depends only on the inputs' rows counts, and the single
decision `out_rows > maxRowsPerSmallPart` selects the destination
directory, the `nocache` hint of the writer call, and the tier list the
new handle is installed into — regardless of which tiers the inputs came
from. -/
theorem mergeParts_isBig_spec (env : MergeEnv) (st : PtState) (pws : List Nat) (phRows : Nat)
    (hro : readersOk env st.heap pws = true)
    (hbsw : env.bswInitErr = false)
    (hmr : env.mergeResult = Except.ok phRows)
    (hph : 0 < phRows)
    (hwt : env.writeTxnErr = false)
    (hrt : env.runTxnErr = false)
    (hop : env.openPartErr = false)
    (hne : pws ≠ [])
    (hflag : ∀ idv ∈ pws, (st.heap idv).isInMerge = true)
    (hnd : pws.Nodup)
    (hrem : (removeParts st.smallParts pws).2 + (removeParts st.bigParts pws).2 = pws.length)
    (hrc : ∀ idv ∈ pws, 1 ≤ (st.heap idv).refCount ∧ (st.heap idv).refCount < 2 ^ 63)
    (hfresh : env.newId ∉ pws)
    (hns : env.newId ∉ st.smallParts)
    (hnb : env.newId ∉ st.bigParts) :
    ∃ mr, mergeParts env st pws = some mr ∧
      mr.res = Except.ok () ∧
      outRowsCount st.heap pws = ((pws.map fun idv => (st.heap idv).rows).sum) % 2 ^ 64 ∧
      (((pws.map fun idv => (st.heap idv).rows).sum) < 2 ^ 64 →
        outRowsCount st.heap pws = (pws.map fun idv => (st.heap idv).rows).sum) ∧
      mr.bswCall = some
        ((if decide (outRowsCount st.heap pws > maxRowsPerSmallPart) = true
            then st.bigPartsPath else st.smallPartsPath)
          ++ "/tmp/" ++ hex16 ((st.mergeIdx + 1) % 2 ^ 64),
         decide (outRowsCount st.heap pws > maxRowsPerSmallPart),
         getCompressLevelForRowsCount (outRowsCount st.heap pws)) ∧
      mr.openedDst = some
        ((if decide (outRowsCount st.heap pws > maxRowsPerSmallPart) = true
            then st.bigPartsPath else st.smallPartsPath) ++ "/" ++ env.phName) ∧
      (decide (outRowsCount st.heap pws > maxRowsPerSmallPart) = true →
        env.newId ∈ mr.state.bigParts ∧ env.newId ∉ mr.state.smallParts) ∧
      (decide (outRowsCount st.heap pws > maxRowsPerSmallPart) = false →
        env.newId ∈ mr.state.smallParts ∧ env.newId ∉ mr.state.bigParts) ∧
      (∀ hp : Nat → partWrapper, (∀ idv ∈ pws, (hp idv).rows = (st.heap idv).rows) →
        outRowsCount hp pws = outRowsCount st.heap pws) := by
  obtain ⟨heap2, hdall, hprops, hcore⟩ :=
    mergePartsCore_pos env st pws phRows hro hbsw hmr hph hwt hrt hop hnd hrem hrc hfresh
  have hflags2 : ∀ idv ∈ pws, (heap2 idv).isInMerge = true :=
    fun idv h => ((hprops idv h).2).trans (hflag idv h)
  obtain ⟨heap3, hclear, hcleared, _⟩ := clearFlags_spec pws heap2 hnd hflags2
  have heq : mergeParts env st pws = some
      { res := Except.ok (),
        state :=
          { st with
            heap := heap3,
            smallParts :=
              if decide (outRowsCount st.heap pws > maxRowsPerSmallPart) = true
              then (removeParts st.smallParts pws).1
              else (removeParts st.smallParts pws).1 ++ [env.newId],
            bigParts :=
              if decide (outRowsCount st.heap pws > maxRowsPerSmallPart) = true
              then (removeParts st.bigParts pws).1 ++ [env.newId]
              else (removeParts st.bigParts pws).1,
            mergeIdx := (st.mergeIdx + 1) % 2 ^ 64 },
        bswCall := some
          ((if decide (outRowsCount st.heap pws > maxRowsPerSmallPart) = true
              then st.bigPartsPath else st.smallPartsPath)
            ++ "/tmp/" ++ hex16 ((st.mergeIdx + 1) % 2 ^ 64),
           decide (outRowsCount st.heap pws > maxRowsPerSmallPart),
           getCompressLevelForRowsCount (outRowsCount st.heap pws)),
        txnTerminal := some
          ((if decide (outRowsCount st.heap pws > maxRowsPerSmallPart) = true
              then st.bigPartsPath else st.smallPartsPath)
            ++ "/tmp/" ++ hex16 ((st.mergeIdx + 1) % 2 ^ 64),
           (if decide (outRowsCount st.heap pws > maxRowsPerSmallPart) = true
              then st.bigPartsPath else st.smallPartsPath) ++ "/" ++ env.phName),
        openedDst := some
          ((if decide (outRowsCount st.heap pws > maxRowsPerSmallPart) = true
              then st.bigPartsPath else st.smallPartsPath) ++ "/" ++ env.phName),
        decRefed := pws } := by
    unfold mergeParts
    rw [if_neg (show ¬ (pws.isEmpty = true) from by
      simp only [List.isEmpty_eq_true]
      exact hne)]
    simp only [hcore, hclear]
  refine ⟨_, heq, rfl, outRowsCount_eq st.heap pws, ?_, rfl, rfl, ?_, ?_, ?_⟩
  · intro hlt
    rw [outRowsCount_eq st.heap pws]
    exact Nat.mod_eq_of_lt hlt
  · intro hbig
    constructor
    · show env.newId ∈
        (if decide (outRowsCount st.heap pws > maxRowsPerSmallPart) = true
          then (removeParts st.bigParts pws).1 ++ [env.newId]
          else (removeParts st.bigParts pws).1)
      rw [if_pos hbig]
      simp
    · show env.newId ∉
        (if decide (outRowsCount st.heap pws > maxRowsPerSmallPart) = true
          then (removeParts st.smallParts pws).1
          else (removeParts st.smallParts pws).1 ++ [env.newId])
      rw [if_pos hbig]
      intro hcon
      exact hns ((mem_removeParts st.smallParts pws env.newId).mp hcon).1
  · intro hsmall
    constructor
    · show env.newId ∈
        (if decide (outRowsCount st.heap pws > maxRowsPerSmallPart) = true
          then (removeParts st.smallParts pws).1
          else (removeParts st.smallParts pws).1 ++ [env.newId])
      rw [if_neg (show ¬ (decide (outRowsCount st.heap pws > maxRowsPerSmallPart) = true)
        from by rw [hsmall]; exact Bool.false_ne_true)]
      simp
    · show env.newId ∉
        (if decide (outRowsCount st.heap pws > maxRowsPerSmallPart) = true
          then (removeParts st.bigParts pws).1 ++ [env.newId]
          else (removeParts st.bigParts pws).1)
      rw [if_neg (show ¬ (decide (outRowsCount st.heap pws > maxRowsPerSmallPart) = true)
        from by rw [hsmall]; exact Bool.false_ne_true)]
      intro hcon
      exact hnb ((mem_removeParts st.bigParts pws env.newId).mp hcon).1
  · intro hp hrows
    rw [outRowsCount_eq, outRowsCount_eq, List.map_congr_left hrows]

/-- Witness for the C4 theorem: two small-tier inputs whose combined
rows count stays below `maxRowsPerSmallPart`, so the merged part is
installed back into the small tier. -/
theorem mergeParts_isBig_spec_witness :
    ∃ mr, mergeParts
        { readerFileErr := fun _ => false, mergeResult := Except.ok 10, newId := 7 }
        { heap := fun j => { id := j, rows := 5, isInMerge := true },
          smallParts := [0, 1], bigParts := [],
          smallPartsPath := "/s", bigPartsPath := "/b" }
        [0, 1] = some mr ∧
      mr.res = Except.ok () ∧
      outRowsCount (fun j => { id := j, rows := 5, isInMerge := true }) [0, 1] =
        (([0, 1].map fun idv =>
          ((fun j => ({ id := j, rows := 5, isInMerge := true } : partWrapper)) idv).rows).sum) % 2 ^ 64 ∧
      ((([0, 1].map fun idv =>
          ((fun j => ({ id := j, rows := 5, isInMerge := true } : partWrapper)) idv).rows).sum) < 2 ^ 64 →
        outRowsCount (fun j => { id := j, rows := 5, isInMerge := true }) [0, 1] =
          ([0, 1].map fun idv =>
            ((fun j => ({ id := j, rows := 5, isInMerge := true } : partWrapper)) idv).rows).sum) ∧
      mr.bswCall = some
        ((if decide (outRowsCount (fun j => { id := j, rows := 5, isInMerge := true }) [0, 1]
              > maxRowsPerSmallPart) = true
            then "/b" else "/s")
          ++ "/tmp/" ++ hex16 ((0 + 1) % 2 ^ 64),
         decide (outRowsCount (fun j => { id := j, rows := 5, isInMerge := true }) [0, 1]
           > maxRowsPerSmallPart),
         getCompressLevelForRowsCount
           (outRowsCount (fun j => { id := j, rows := 5, isInMerge := true }) [0, 1])) ∧
      mr.openedDst = some
        ((if decide (outRowsCount (fun j => { id := j, rows := 5, isInMerge := true }) [0, 1]
              > maxRowsPerSmallPart) = true
            then "/b" else "/s") ++ "/" ++ "part") ∧
      (decide (outRowsCount (fun j => { id := j, rows := 5, isInMerge := true }) [0, 1]
          > maxRowsPerSmallPart) = true →
        7 ∈ mr.state.bigParts ∧ 7 ∉ mr.state.smallParts) ∧
      (decide (outRowsCount (fun j => { id := j, rows := 5, isInMerge := true }) [0, 1]
          > maxRowsPerSmallPart) = false →
        7 ∈ mr.state.smallParts ∧ 7 ∉ mr.state.bigParts) ∧
      (∀ hp : Nat → partWrapper,
        (∀ idv ∈ [0, 1], (hp idv).rows =
          ((fun j => ({ id := j, rows := 5, isInMerge := true } : partWrapper)) idv).rows) →
        outRowsCount hp [0, 1] =
          outRowsCount (fun j => { id := j, rows := 5, isInMerge := true }) [0, 1]) :=
  mergeParts_isBig_spec _ _ _ 10 (by decide) (by decide) rfl (by decide)
    (by decide) (by decide) (by decide) (by decide) (by decide) (by decide)
    (by decide) (by decide) (by decide) (by decide) (by decide)

/-- C5: when the merged part header reports zero rows, the transaction's
terminal line carries an empty destination, no part is opened and no
handle is installed in either tier, while the inputs are still removed
from both registries and each one is released exactly once. -/
theorem mergeParts_emptyOutput_spec (env : MergeEnv) (st : PtState) (pws : List Nat)
    (hro : readersOk env st.heap pws = true)
    (hbsw : env.bswInitErr = false)
    (hmr : env.mergeResult = Except.ok 0)
    (hwt : env.writeTxnErr = false)
    (hrt : env.runTxnErr = false)
    (hne : pws ≠ [])
    (hflag : ∀ idv ∈ pws, (st.heap idv).isInMerge = true)
    (hnd : pws.Nodup)
    (hrem : (removeParts st.smallParts pws).2 + (removeParts st.bigParts pws).2 = pws.length)
    (hrc : ∀ idv ∈ pws, 1 ≤ (st.heap idv).refCount ∧ (st.heap idv).refCount < 2 ^ 63) :
    ∃ mr, mergeParts env st pws = some mr ∧
      mr.res = Except.ok () ∧
      mr.txnTerminal = some
        ((if decide (outRowsCount st.heap pws > maxRowsPerSmallPart) = true
            then st.bigPartsPath else st.smallPartsPath)
          ++ "/tmp/" ++ hex16 ((st.mergeIdx + 1) % 2 ^ 64), "") ∧
      mr.openedDst = none ∧
      mr.state.smallParts = (removeParts st.smallParts pws).1 ∧
      mr.state.bigParts = (removeParts st.bigParts pws).1 ∧
      (∀ idv ∈ pws, idv ∉ mr.state.smallParts ∧ idv ∉ mr.state.bigParts) ∧
      mr.decRefed = pws ∧
      (∀ idv ∈ pws, (mr.state.heap idv).refCount = (st.heap idv).refCount - 1 ∧
        (mr.state.heap idv).isInMerge = false) := by
  obtain ⟨heap2, hdall, hprops, hother, hcore⟩ :=
    mergePartsCore_zero env st pws hro hbsw hmr hwt hrt hnd hrem hrc
  have hflags2 : ∀ idv ∈ pws, (heap2 idv).isInMerge = true :=
    fun idv h => ((hprops idv h).2).trans (hflag idv h)
  obtain ⟨heap3, hclear, hcleared, _⟩ := clearFlags_spec pws heap2 hnd hflags2
  have heq : mergeParts env st pws = some
      { res := Except.ok (),
        state :=
          { st with
            heap := heap3,
            smallParts := (removeParts st.smallParts pws).1,
            bigParts := (removeParts st.bigParts pws).1,
            mergeIdx := (st.mergeIdx + 1) % 2 ^ 64 },
        bswCall := some
          ((if decide (outRowsCount st.heap pws > maxRowsPerSmallPart) = true
              then st.bigPartsPath else st.smallPartsPath)
            ++ "/tmp/" ++ hex16 ((st.mergeIdx + 1) % 2 ^ 64),
           decide (outRowsCount st.heap pws > maxRowsPerSmallPart),
           getCompressLevelForRowsCount (outRowsCount st.heap pws)),
        txnTerminal := some
          ((if decide (outRowsCount st.heap pws > maxRowsPerSmallPart) = true
              then st.bigPartsPath else st.smallPartsPath)
            ++ "/tmp/" ++ hex16 ((st.mergeIdx + 1) % 2 ^ 64), ""),
        openedDst := none,
        decRefed := pws } := by
    unfold mergeParts
    rw [if_neg (show ¬ (pws.isEmpty = true) from by
      simp only [List.isEmpty_eq_true]
      exact hne)]
    simp only [hcore, hclear]
  refine ⟨_, heq, rfl, rfl, rfl, rfl, rfl, ?_, rfl, ?_⟩
  · intro idv hidv
    constructor
    · intro hcon
      exact ((mem_removeParts st.smallParts pws idv).mp hcon).2 hidv
    · intro hcon
      exact ((mem_removeParts st.bigParts pws idv).mp hcon).2 hidv
  · intro idv hidv
    refine ⟨?_, (hcleared idv hidv).1⟩
    rw [(hcleared idv hidv).2]
    exact (hprops idv hidv).1

/-- Witness for the C5 theorem: two inputs merged into an all-tombstoned
result. -/
theorem mergeParts_emptyOutput_spec_witness :
    ∃ mr, mergeParts
        { readerFileErr := fun _ => false, mergeResult := Except.ok 0, newId := 9 }
        { heap := fun j => { id := j, rows := 5, isInMerge := true },
          smallParts := [0, 1], bigParts := [],
          smallPartsPath := "/s", bigPartsPath := "/b" }
        [0, 1] = some mr ∧
      mr.res = Except.ok () ∧
      mr.txnTerminal = some
        ((if decide (outRowsCount (fun j => { id := j, rows := 5, isInMerge := true }) [0, 1]
              > maxRowsPerSmallPart) = true
            then "/b" else "/s")
          ++ "/tmp/" ++ hex16 ((0 + 1) % 2 ^ 64), "") ∧
      mr.openedDst = none ∧
      mr.state.smallParts = (removeParts [0, 1] [0, 1]).1 ∧
      mr.state.bigParts = (removeParts [] [0, 1]).1 ∧
      (∀ idv ∈ [0, 1], idv ∉ mr.state.smallParts ∧ idv ∉ mr.state.bigParts) ∧
      mr.decRefed = [0, 1] ∧
      (∀ idv ∈ [0, 1], (mr.state.heap idv).refCount =
          (((fun j => ({ id := j, rows := 5, isInMerge := true } : partWrapper)) idv)).refCount - 1 ∧
        (mr.state.heap idv).isInMerge = false) :=
  mergeParts_emptyOutput_spec _ _ _ (by decide) (by decide) rfl (by decide) (by decide)
    (by decide) (by decide) (by decide) (by decide) (by decide)

/-- The sort comparator is total. -/
theorem partLe_total (a b : partWrapper) : (partLe a b || partLe b a) = true := by
  simp only [partLe, Bool.or_eq_true, Bool.and_eq_true, decide_eq_true_eq]
  omega

/-- The sort comparator is transitive. -/
theorem partLe_trans (a b c : partWrapper) :
    partLe a b = true → partLe b c = true → partLe a c = true := by
  simp only [partLe, Bool.or_eq_true, Bool.and_eq_true, decide_eq_true_eq]
  omega

/-- The pairs enumerated by the nested loops are exactly the windows of
length `2..n` fitting inside the candidate list. -/
theorem mem_windowPairs (n len i j : Nat) :
    (i, j) ∈ windowPairs n len ↔ 2 ≤ i ∧ i ≤ n ∧ j + i ≤ len := by
  simp only [windowPairs, List.mem_flatMap, List.mem_map, List.mem_range, List.mem_range',
    Prod.mk.injEq]
  constructor
  · rintro ⟨a, ⟨k, hk, rfl⟩, b, hb, rfl, rfl⟩
    omega
  · intro h
    exact ⟨i, ⟨i - 2, by omega, by omega⟩, j, by omega, rfl, rfl⟩

/-- Generalized fold form of the wrapping window sum. -/
theorem winSum_go :
    ∀ (rs : List Nat) (s : Nat),
      rs.foldl (fun a r => (a + r) % 2 ^ 64) (s % 2 ^ 64) = (s + rs.sum) % 2 ^ 64 := by
  intro rs
  induction rs with
  | nil => intro s; simp
  | cons a l ih =>
    intro s
    rw [List.foldl_cons, Nat.mod_add_mod, ih (s + a), List.sum_cons]
    congr 1
    omega

/-- The wrapping window sum is the true window total mod `2^64`. -/
theorem winSum_eq (sorted : List partWrapper) (i j : Nat) :
    winSum sorted i j = (((winAt sorted i j).map fun pw => pw.rows).sum) % 2 ^ 64 := by
  have h := winSum_go ((winAt sorted i j).map fun pw => pw.rows) 0
  rw [Nat.zero_mod] at h
  rw [winSum, h, Nat.zero_add]

/-- On finite scores (positive denominators) the `float64` comparison is
exact rational comparison. -/
theorem fltPair_eq_ratLt (a b : Nat × Nat) (ha : 0 < a.2) (hb : 0 < b.2) :
    fltPair a b = decide (scoreQ a < scoreQ b) := by
  unfold fltPair
  rw [if_neg (by omega : ¬ a.2 = 0), if_neg (by omega : ¬ b.2 = 0), decide_eq_decide]
  unfold scoreQ
  rw [div_lt_div_iff (by exact_mod_cast ha) (by exact_mod_cast hb)]
  constructor
  · intro h
    exact_mod_cast h
  · intro h
    exact_mod_cast h

/-- The initial score `0` is `float64`-below every positive integer
threshold. -/
theorem fltPair_zero_lt (k : Nat) (hk : 0 < k) : fltPair (0, 1) (k, 1) = true := by
  unfold fltPair
  simp only [decide_eq_true_eq]
  norm_num
  omega

/-- Inside the candidate list every window's last element is a real
part, so positive rows counts make its score finite. -/
theorem winLastRows_pos (S : List partWrapper) (hposS : ∀ pw ∈ S, 1 ≤ pw.rows)
    (i j : Nat) (hi : 2 ≤ i) (hle : j + i ≤ S.length) : 0 < winLastRows S i j := by
  have hlt : j + i - 1 < S.length := by omega
  unfold winLastRows
  rw [List.getD_eq_getElem S {} hlt]
  exact hposS _ (List.getElem_mem hlt)

/-- When every enumerated window has a finite score, the best score
stays finite and never decreases along the search. -/
theorem searchFold_mono (sorted : List partWrapper) (maxRows : Nat) :
    ∀ (ps : List (Nat × Nat)) (acc : (Nat × Nat) × List partWrapper),
      (∀ p ∈ ps, 0 < winLastRows sorted p.1 p.2) → 0 < acc.1.2 →
      0 < (ps.foldl (searchStep sorted maxRows) acc).1.2 ∧
      scoreQ acc.1 ≤ scoreQ (ps.foldl (searchStep sorted maxRows) acc).1 := by
  intro ps
  induction ps with
  | nil => intro acc _ hacc; exact ⟨hacc, le_refl _⟩
  | cons q t ih =>
    intro acc hfin hacc
    have hfint : ∀ p ∈ t, 0 < winLastRows sorted p.1 p.2 :=
      fun p hp => hfin p (List.mem_cons_of_mem q hp)
    have hq : 0 < winLastRows sorted q.1 q.2 := hfin q (List.mem_cons_self q t)
    rw [List.foldl_cons]
    by_cases h1 : winSum sorted q.1 q.2 > maxRows
    · have hstep : searchStep sorted maxRows acc q = acc := by
        simp only [searchStep]
        rw [if_pos h1]
      rw [hstep]
      exact ih acc hfint hacc
    · by_cases h2 : fltPair (winSum sorted q.1 q.2, winLastRows sorted q.1 q.2) acc.1 = true
      · have hstep : searchStep sorted maxRows acc q = acc := by
          simp only [searchStep]
          rw [if_neg h1, if_pos h2]
        rw [hstep]
        exact ih acc hfint hacc
      · have hstep : searchStep sorted maxRows acc q =
            ((winSum sorted q.1 q.2, winLastRows sorted q.1 q.2), winAt sorted q.1 q.2) := by
          simp only [searchStep]
          rw [if_neg h1, if_neg h2]
        rw [hstep]
        have hrec := ih ((winSum sorted q.1 q.2, winLastRows sorted q.1 q.2),
          winAt sorted q.1 q.2) hfint hq
        refine ⟨hrec.1, le_trans ?_ hrec.2⟩
        rw [fltPair_eq_ratLt _ _ hq hacc] at h2
        rw [decide_eq_true_eq] at h2
        exact le_of_not_lt h2

/-- When every enumerated window has a finite score, the final best
score dominates the exact score of every admissible visited window. -/
theorem searchFold_ub (sorted : List partWrapper) (maxRows : Nat) :
    ∀ (ps : List (Nat × Nat)) (acc : (Nat × Nat) × List partWrapper) (p : Nat × Nat),
      (∀ q ∈ ps, 0 < winLastRows sorted q.1 q.2) → 0 < acc.1.2 →
      p ∈ ps → winSum sorted p.1 p.2 ≤ maxRows →
      winScoreQ sorted p.1 p.2 ≤ scoreQ (ps.foldl (searchStep sorted maxRows) acc).1 := by
  intro ps
  induction ps with
  | nil => intro acc p _ _ hp; cases hp
  | cons q t ih =>
    intro acc p hfin hacc hp hadm
    have hfint : ∀ r ∈ t, 0 < winLastRows sorted r.1 r.2 :=
      fun r hr => hfin r (List.mem_cons_of_mem q hr)
    have hq : 0 < winLastRows sorted q.1 q.2 := hfin q (List.mem_cons_self q t)
    rw [List.foldl_cons]
    rcases List.mem_cons.mp hp with rfl | hpt
    · by_cases h2 : fltPair (winSum sorted p.1 p.2, winLastRows sorted p.1 p.2) acc.1 = true
      · have hstep : searchStep sorted maxRows acc p = acc := by
          simp only [searchStep]
          rw [if_neg (show ¬ winSum sorted p.1 p.2 > maxRows from by omega), if_pos h2]
        rw [hstep]
        rw [fltPair_eq_ratLt _ _ hq hacc, decide_eq_true_eq] at h2
        exact le_trans (le_of_lt h2) (searchFold_mono sorted maxRows t acc hfint hacc).2
      · have hstep : searchStep sorted maxRows acc p =
            ((winSum sorted p.1 p.2, winLastRows sorted p.1 p.2), winAt sorted p.1 p.2) := by
          simp only [searchStep]
          rw [if_neg (show ¬ winSum sorted p.1 p.2 > maxRows from by omega), if_neg h2]
        rw [hstep]
        exact (searchFold_mono sorted maxRows t
          ((winSum sorted p.1 p.2, winLastRows sorted p.1 p.2), winAt sorted p.1 p.2)
          hfint hq).2
    · have hstep : 0 < (searchStep sorted maxRows acc q).1.2 := by
        simp only [searchStep]
        by_cases h1 : winSum sorted q.1 q.2 > maxRows
        · rw [if_pos h1]
          exact hacc
        · rw [if_neg h1]
          by_cases h2 : fltPair (winSum sorted q.1 q.2, winLastRows sorted q.1 q.2) acc.1 = true
          · rw [if_pos h2]
            exact hacc
          · rw [if_neg h2]
            exact hq
      exact ih (searchStep sorted maxRows acc q) p hfint hstep hpt hadm

/-- The search result is either the initial accumulator or the score
pair and window of some admissible visited pair. -/
theorem searchFold_src (sorted : List partWrapper) (maxRows : Nat) :
    ∀ (ps : List (Nat × Nat)) (acc : (Nat × Nat) × List partWrapper),
      ps.foldl (searchStep sorted maxRows) acc = acc ∨
      ∃ p ∈ ps, winSum sorted p.1 p.2 ≤ maxRows ∧
        ps.foldl (searchStep sorted maxRows) acc =
          ((winSum sorted p.1 p.2, winLastRows sorted p.1 p.2), winAt sorted p.1 p.2) := by
  intro ps
  induction ps with
  | nil => intro acc; exact Or.inl rfl
  | cons q t ih =>
    intro acc
    rw [List.foldl_cons]
    by_cases h1 : winSum sorted q.1 q.2 > maxRows
    · have hstep : searchStep sorted maxRows acc q = acc := by
        simp only [searchStep]
        rw [if_pos h1]
      rw [hstep]
      rcases ih acc with h | ⟨p, hpt, hadm, heq⟩
      · exact Or.inl h
      · exact Or.inr ⟨p, List.mem_cons_of_mem q hpt, hadm, heq⟩
    · by_cases h2 : fltPair (winSum sorted q.1 q.2, winLastRows sorted q.1 q.2) acc.1 = true
      · have hstep : searchStep sorted maxRows acc q = acc := by
          simp only [searchStep]
          rw [if_neg h1, if_pos h2]
        rw [hstep]
        rcases ih acc with h | ⟨p, hpt, hadm, heq⟩
        · exact Or.inl h
        · exact Or.inr ⟨p, List.mem_cons_of_mem q hpt, hadm, heq⟩
      · have hstep : searchStep sorted maxRows acc q =
            ((winSum sorted q.1 q.2, winLastRows sorted q.1 q.2), winAt sorted q.1 q.2) := by
          simp only [searchStep]
          rw [if_neg h1, if_neg h2]
        rw [hstep]
        rcases ih ((winSum sorted q.1 q.2, winLastRows sorted q.1 q.2),
            winAt sorted q.1 q.2) with h | ⟨p, hpt, hadm, heq⟩
        · exact Or.inr ⟨q, List.mem_cons_self q t, by omega, h⟩
        · exact Or.inr ⟨p, List.mem_cons_of_mem q hpt, hadm, heq⟩

/-- Evaluation of `appendPartsToMerge` past its two early returns. -/
theorem appendPartsToMerge_eq (dst src : List partWrapper) (maxPartsToMerge maxRows : Nat)
    (h2 : 2 ≤ src.length) (hmp : 2 ≤ maxPartsToMerge) :
    appendPartsToMerge dst src maxPartsToMerge maxRows =
      (if fltPair (searchBest (sortedCandidates src maxRows) maxRows
            (min maxPartsToMerge (sortedCandidates src maxRows).length)).1
          (max 2 (maxPartsToMerge / 2), 1)
       then some dst
       else some (dst ++ (searchBest (sortedCandidates src maxRows) maxRows
            (min maxPartsToMerge (sortedCandidates src maxRows).length)).2)) := by
  unfold appendPartsToMerge sortedCandidates
  rw [if_neg (show ¬ src.length < 2 from by omega),
    if_neg (show ¬ maxPartsToMerge < 2 from by omega)]


set_option maxRecDepth 40000 in
/-- C2, counterexample to the original claim: with fifteen parts of
`2^61` rows each, `maxPartsToMerge = 15` and `maxRows = 2^64 - 2`, every
part passes the `maxRows / 2` prefilter, the full fifteen-part window's
`uint64` rows sum wraps to `7 * 2^61 ≤ maxRows` with score `7` — tying
the best unwrapped window and winning as the later one, and meeting the
threshold `max 2 (15 / 2) = 7` — so `appendPartsToMerge` selects all
fifteen parts although their true rows total `15 * 2^61` exceeds
`maxRows`, contradicting the claimed "window's total rows_count is at
most maxRows". -/
theorem appendPartsToMerge_wrap_counterexample :
    appendPartsToMerge [] (List.replicate 15 ({ rows := 2 ^ 61 } : partWrapper))
        15 (2 ^ 64 - 2)
      = some (List.replicate 15 ({ rows := 2 ^ 61 } : partWrapper)) ∧
    (((List.replicate 15 ({ rows := 2 ^ 61 } : partWrapper)).map fun pw => pw.rows).sum)
      = 15 * 2 ^ 61 ∧
    2 ^ 64 - 2 < 15 * 2 ^ 61 ∧
    winSum (List.replicate 15 ({ rows := 2 ^ 61 } : partWrapper)) 15 0 = 7 * 2 ^ 61 := by
  refine ⟨?_, by decide, by decide, by decide⟩
  have hfil : (List.replicate 15 ({ rows := 2 ^ 61 } : partWrapper)).filter
      (fun pw => decide (pw.rows ≤ (2 ^ 64 - 2) / 2)) =
      List.replicate 15 ({ rows := 2 ^ 61 } : partWrapper) := by
    rw [List.filter_eq_self]
    intro a ha
    rw [List.eq_of_mem_replicate ha]
    decide
  have hS : sortedCandidates (List.replicate 15 ({ rows := 2 ^ 61 } : partWrapper))
      (2 ^ 64 - 2) = List.replicate 15 ({ rows := 2 ^ 61 } : partWrapper) := by
    unfold sortedCandidates
    rw [hfil]
    exact List.perm_replicate.mp (List.mergeSort_perm _ partLe)
  rw [appendPartsToMerge_eq [] _ 15 (2 ^ 64 - 2) (by decide) (by decide), hS]
  decide

/-- C2, amended: with `maxPartsToMerge ≥ 2` and every source part
holding at least one row (so no window's `float64` score is `NaN`),
`appendPartsToMerge` returns `dst` unchanged for fewer than two source
parts and when every candidate exceeds `maxRows / 2` rows; the list it
searches is the filtered candidates sorted by rows count ascending and
`MinTimestamp` descending on ties; and for two or more source parts
either the best score is `float64`-below the threshold
`max 2 (maxPartsToMerge / 2)` and `dst` is returned unchanged, or the
appended selection is a contiguous window of the sorted candidates of
length between `2` and `min maxPartsToMerge |candidates|` whose
*wrapping `uint64`* rows total — the true total mod `2^64`, not the
true total itself — is at most `maxRows`, whose exact score dominates
every admissible window and reaches the threshold. -/
theorem appendPartsToMerge_spec (dst src : List partWrapper)
    (maxPartsToMerge maxRows : Nat) (hmp : 2 ≤ maxPartsToMerge)
    (hpos : ∀ pw ∈ src, 1 ≤ pw.rows) :
    (src.length < 2 → appendPartsToMerge dst src maxPartsToMerge maxRows = some dst) ∧
    ((∀ pw ∈ src, maxRows / 2 < pw.rows) →
      appendPartsToMerge dst src maxPartsToMerge maxRows = some dst) ∧
    (sortedCandidates src maxRows).Perm
      (src.filter fun pw => decide (pw.rows ≤ maxRows / 2)) ∧
    List.Pairwise (fun a b => a.rows < b.rows ∨ (a.rows = b.rows ∧ b.minTs ≤ a.minTs))
      (sortedCandidates src maxRows) ∧
    (2 ≤ src.length →
      (appendPartsToMerge dst src maxPartsToMerge maxRows = some dst ∧
        fltPair (searchBest (sortedCandidates src maxRows) maxRows
            (min maxPartsToMerge (sortedCandidates src maxRows).length)).1
          (max 2 (maxPartsToMerge / 2), 1) = true) ∨
      (∃ i j,
        2 ≤ i ∧
        i ≤ min maxPartsToMerge (sortedCandidates src maxRows).length ∧
        j + i ≤ (sortedCandidates src maxRows).length ∧
        (winAt (sortedCandidates src maxRows) i j).length = i ∧
        winSum (sortedCandidates src maxRows) i j ≤ maxRows ∧
        winSum (sortedCandidates src maxRows) i j =
          (((winAt (sortedCandidates src maxRows) i j).map fun pw => pw.rows).sum) % 2 ^ 64 ∧
        (∀ i2 j2, 2 ≤ i2 →
          i2 ≤ min maxPartsToMerge (sortedCandidates src maxRows).length →
          j2 + i2 ≤ (sortedCandidates src maxRows).length →
          winSum (sortedCandidates src maxRows) i2 j2 ≤ maxRows →
          winScoreQ (sortedCandidates src maxRows) i2 j2 ≤
            winScoreQ (sortedCandidates src maxRows) i j) ∧
        ((max 2 (maxPartsToMerge / 2) : Nat) : ℚ) ≤
          winScoreQ (sortedCandidates src maxRows) i j ∧
        appendPartsToMerge dst src maxPartsToMerge maxRows =
          some (dst ++ winAt (sortedCandidates src maxRows) i j))) := by
  refine ⟨?_, ?_, List.mergeSort_perm _ partLe, ?_, ?_⟩
  · intro h
    unfold appendPartsToMerge
    rw [if_pos h]
  · intro hall
    by_cases hlen : src.length < 2
    · unfold appendPartsToMerge
      rw [if_pos hlen]
    · have hfil : src.filter (fun pw => decide (pw.rows ≤ maxRows / 2)) = [] := by
        rw [List.filter_eq_nil_iff]
        intro pw hpw
        have := hall pw hpw
        simp only [decide_eq_true_eq]
        omega
      have hS : sortedCandidates src maxRows = [] := by
        unfold sortedCandidates
        rw [hfil]
        exact (List.mergeSort_perm [] partLe).eq_nil
      rw [appendPartsToMerge_eq dst src maxPartsToMerge maxRows (by omega) hmp, hS]
      simp only [List.length_nil, Nat.min_zero]
      rw [if_pos (show fltPair (searchBest [] maxRows 0).1
          (max 2 (maxPartsToMerge / 2), 1) = true from
        fltPair_zero_lt (max 2 (maxPartsToMerge / 2)) (by omega))]
  · refine List.Pairwise.imp ?_
      (List.sorted_mergeSort partLe_trans partLe_total
        (src.filter fun pw => decide (pw.rows ≤ maxRows / 2)))
    intro a b h
    simp only [partLe, Bool.or_eq_true, Bool.and_eq_true, decide_eq_true_eq] at h
    exact h
  · intro h2
    have heq := appendPartsToMerge_eq dst src maxPartsToMerge maxRows h2 hmp
    have hposS : ∀ pw ∈ sortedCandidates src maxRows, 1 ≤ pw.rows := by
      intro pw hpw
      unfold sortedCandidates at hpw
      exact hpos pw (List.mem_of_mem_filter ((List.mergeSort_perm _ partLe).mem_iff.mp hpw))
    have hfinW : ∀ p ∈ windowPairs (min maxPartsToMerge (sortedCandidates src maxRows).length)
        (sortedCandidates src maxRows).length,
        0 < winLastRows (sortedCandidates src maxRows) p.1 p.2 := by
      intro p hp
      obtain ⟨i2, j2⟩ := p
      have hm := (mem_windowPairs _ _ i2 j2).mp hp
      exact winLastRows_pos _ hposS i2 j2 hm.1 hm.2.2
    by_cases hth : fltPair (searchBest (sortedCandidates src maxRows) maxRows
        (min maxPartsToMerge (sortedCandidates src maxRows).length)).1
        (max 2 (maxPartsToMerge / 2), 1) = true
    · exact Or.inl ⟨by rw [heq, if_pos hth], hth⟩
    · right
      rcases searchFold_src (sortedCandidates src maxRows) maxRows
          (windowPairs (min maxPartsToMerge (sortedCandidates src maxRows).length)
            (sortedCandidates src maxRows).length) ((0, 1), []) with
        hzero | ⟨⟨i, j⟩, hpm, hadm, hbest⟩
      · exfalso
        apply hth
        have hz2 : searchBest (sortedCandidates src maxRows) maxRows
            (min maxPartsToMerge (sortedCandidates src maxRows).length) = ((0, 1), []) := hzero
        rw [hz2]
        exact fltPair_zero_lt (max 2 (maxPartsToMerge / 2)) (by omega)
      · have hmem := (mem_windowPairs
          (min maxPartsToMerge (sortedCandidates src maxRows).length)
          (sortedCandidates src maxRows).length i j).mp hpm
        have hlastpos : 0 < winLastRows (sortedCandidates src maxRows) i j :=
          winLastRows_pos _ hposS i j hmem.1 hmem.2.2
        have hbest2 : searchBest (sortedCandidates src maxRows) maxRows
            (min maxPartsToMerge (sortedCandidates src maxRows).length) =
            ((winSum (sortedCandidates src maxRows) i j,
              winLastRows (sortedCandidates src maxRows) i j),
             winAt (sortedCandidates src maxRows) i j) := hbest
        refine ⟨i, j, hmem.1, hmem.2.1, hmem.2.2, ?_, hadm, winSum_eq _ _ _, ?_, ?_, ?_⟩
        · simp only [winAt, List.length_take, List.length_drop]
          omega
        · intro i2 j2 h2a h2b h2c hadm2
          have hub := searchFold_ub (sortedCandidates src maxRows) maxRows
            (windowPairs (min maxPartsToMerge (sortedCandidates src maxRows).length)
              (sortedCandidates src maxRows).length) ((0, 1), []) (i2, j2)
            hfinW (by norm_num)
            ((mem_windowPairs (min maxPartsToMerge (sortedCandidates src maxRows).length)
              (sortedCandidates src maxRows).length i2 j2).mpr ⟨h2a, h2b, h2c⟩) hadm2
          rw [hbest] at hub
          exact hub
        · have hflt : fltPair (winSum (sortedCandidates src maxRows) i j,
              winLastRows (sortedCandidates src maxRows) i j)
              (max 2 (maxPartsToMerge / 2), 1) = false := by
            rw [hbest2] at hth
            cases hb : fltPair (winSum (sortedCandidates src maxRows) i j,
                winLastRows (sortedCandidates src maxRows) i j)
                (max 2 (maxPartsToMerge / 2), 1) with
            | true => exact absurd hb hth
            | false => rfl
          rw [fltPair_eq_ratLt _ _ hlastpos (by norm_num), decide_eq_false_iff_not] at hflt
          have hle := le_of_not_lt hflt
          have hk : scoreQ (max 2 (maxPartsToMerge / 2), 1) =
              ((max 2 (maxPartsToMerge / 2) : Nat) : ℚ) := by
            simp [scoreQ]
          rw [hk] at hle
          exact hle
        · rw [heq, if_neg hth, hbest2]

/-- Witness for the amended C2 theorem at a concrete two-part source. -/
theorem appendPartsToMerge_spec_witness :
    (([{ rows := 10 }, { rows := 20 }] : List partWrapper).length < 2 →
      appendPartsToMerge [] [{ rows := 10 }, { rows := 20 }] 4 1000 = some []) ∧
    ((∀ pw ∈ ([{ rows := 10 }, { rows := 20 }] : List partWrapper), 1000 / 2 < pw.rows) →
      appendPartsToMerge [] [{ rows := 10 }, { rows := 20 }] 4 1000 = some []) ∧
    (sortedCandidates [{ rows := 10 }, { rows := 20 }] 1000).Perm
      (([{ rows := 10 }, { rows := 20 }] : List partWrapper).filter
        fun pw => decide (pw.rows ≤ 1000 / 2)) ∧
    List.Pairwise (fun a b => a.rows < b.rows ∨ (a.rows = b.rows ∧ b.minTs ≤ a.minTs))
      (sortedCandidates [{ rows := 10 }, { rows := 20 }] 1000) ∧
    (2 ≤ ([{ rows := 10 }, { rows := 20 }] : List partWrapper).length →
      (appendPartsToMerge [] [{ rows := 10 }, { rows := 20 }] 4 1000 = some [] ∧
        fltPair (searchBest (sortedCandidates [{ rows := 10 }, { rows := 20 }] 1000) 1000
            (min 4 (sortedCandidates [{ rows := 10 }, { rows := 20 }] 1000).length)).1
          (max 2 (4 / 2), 1) = true) ∨
      (∃ i j,
        2 ≤ i ∧
        i ≤ min 4 (sortedCandidates [{ rows := 10 }, { rows := 20 }] 1000).length ∧
        j + i ≤ (sortedCandidates [{ rows := 10 }, { rows := 20 }] 1000).length ∧
        (winAt (sortedCandidates [{ rows := 10 }, { rows := 20 }] 1000) i j).length = i ∧
        winSum (sortedCandidates [{ rows := 10 }, { rows := 20 }] 1000) i j ≤ 1000 ∧
        winSum (sortedCandidates [{ rows := 10 }, { rows := 20 }] 1000) i j =
          (((winAt (sortedCandidates [{ rows := 10 }, { rows := 20 }] 1000) i j).map
            fun pw => pw.rows).sum) % 2 ^ 64 ∧
        (∀ i2 j2, 2 ≤ i2 →
          i2 ≤ min 4 (sortedCandidates [{ rows := 10 }, { rows := 20 }] 1000).length →
          j2 + i2 ≤ (sortedCandidates [{ rows := 10 }, { rows := 20 }] 1000).length →
          winSum (sortedCandidates [{ rows := 10 }, { rows := 20 }] 1000) i2 j2 ≤ 1000 →
          winScoreQ (sortedCandidates [{ rows := 10 }, { rows := 20 }] 1000) i2 j2 ≤
            winScoreQ (sortedCandidates [{ rows := 10 }, { rows := 20 }] 1000) i j) ∧
        ((max 2 (4 / 2) : Nat) : ℚ) ≤
          winScoreQ (sortedCandidates [{ rows := 10 }, { rows := 20 }] 1000) i j ∧
        appendPartsToMerge [] [{ rows := 10 }, { rows := 20 }] 4 1000 =
          some ([] ++ winAt (sortedCandidates [{ rows := 10 }, { rows := 20 }] 1000) i j))) :=
  appendPartsToMerge_spec [] [{ rows := 10 }, { rows := 20 }] 4 1000 (by decide) (by decide)

end VMPartition
